import Mathlib

/-!
Verification of the bet-tracker backend (betslip parsing/normalization pipeline,
odds math, bet schema validation and the permission/attribution model).

The Python source is shallowly embedded: JSON-like Python values become the
inductive type `Val`, Python exceptions become the `PyErr` sum carried in
`Except`, Python numbers (int/float) become `ℚ`, and each Python function of
interest becomes a Lean function of the same name.  `json.loads` (Python
stdlib, external to the repository) is modelled at its boundary: the parsers
take `Option Val`, `none` standing for a `json.JSONDecodeError`.
-/

namespace BetTracker

/-- A JSON-like Python value: `None`, `bool`, numbers (int/float, modelled
exactly as `ℚ`), `str`, `list`, and string-keyed `dict` (association list in
insertion order, keys unique for the values the pipeline builds or receives
from `json.loads`). -/
inductive Val : Type
  | null : Val
  | bool : Bool → Val
  | num : ℚ → Val
  | str : String → Val
  | arr : List Val → Val
  | obj : List (String × Val) → Val

/-- Python exceptions raised by the embedded code. -/
inductive PyErr : Type
  | betSlipParserError (msg : String)
  | valueError (msg : String)
  | zeroDivisionError
  | typeError (msg : String)
  | attributeError (msg : String)
  | keyError (key : String)
  | indexError (msg : String)
  deriving DecidableEq, Repr

namespace Val

/-- First-match lookup in an association list (Python `dict` access). -/
def lookup : List (String × Val) → String → Option Val
  | [], _ => none
  | (k, v) :: rest, key => if k = key then some v else lookup rest key

/-- `d[key] = v` on a Python dict: overwrite in place or append. -/
def setKey : List (String × Val) → String → Val → List (String × Val)
  | [], key, v => [(key, v)]
  | (k, w) :: rest, key, v =>
      if k = key then (key, v) :: rest else (k, w) :: setKey rest key v

/-- Python truthiness (`bool(v)`). -/
def truthy : Val → Bool
  | .null => false
  | .bool b => b
  | .num q => q != 0
  | .str s => s != ""
  | .arr l => !l.isEmpty
  | .obj l => !l.isEmpty

/-- Python `a or b`: `a` if truthy, else `b`. -/
def pyOr (a b : Val) : Val := if a.truthy then a else b

/-- Numeric view: Python `bool` is an `int` subclass (`True == 1`). -/
def toNum? : Val → Option ℚ
  | .num q => some q
  | .bool b => some (if b then 1 else 0)
  | _ => none

/-- Python `==`.  Numbers (and bools) compare by value across types;
`None` and strings compare within their own type; mixed types are unequal.
(Python compares lists/dicts elementwise with `==`, but every place the
pipeline applies `==` to a list or dict — `set()` construction, dict
keying — raises `TypeError` for unhashability first, so elementwise
equality on `arr`/`obj` is never observable and they are mapped to
`false` here.) -/
def pyEq (a b : Val) : Bool :=
  match toNum? a, toNum? b with
  | some x, some y => x == y
  | some _, none => false
  | none, some _ => false
  | none, none =>
      match a, b with
      | .null, .null => true
      | .str s, .str t => s == t
      | _, _ => false

/-- Python hashability: lists and dicts are unhashable. -/
def hashable : Val → Bool
  | .arr _ => false
  | .obj _ => false
  | _ => true

/-- `v.get(key)` — `AttributeError` unless `v` is a dict; missing key gives
Python `None`. -/
def pyGet (v : Val) (key : String) : Except PyErr Val :=
  match v with
  | .obj l => .ok ((lookup l key).getD .null)
  | _ => .error (.attributeError "object has no attribute get")

/-- `v.get(key, default)` on a value already known to be a dict. -/
def getD (v : Val) (key : String) (dflt : Val) : Val :=
  match v with
  | .obj l => (lookup l key).getD dflt
  | _ => dflt

/-- Whether a dict value has the key (`key in v` for dicts). -/
def hasKey (v : Val) (key : String) : Bool :=
  match v with
  | .obj l => (lookup l key).isSome
  | _ => false

end Val

/-- Coerce a value to a number where Python arithmetic/comparison against a
number would; non-numeric operands raise `TypeError`. -/
def toNumE (v : Val) : Except PyErr ℚ :=
  match v.toNum? with
  | some q => .ok q
  | none => .error (.typeError "unsupported operand type")

/-! ## Odds Math — `bet_validator.py`

`american_to_decimal_odds`, `decimal_to_american_odds`,
`reverse_calculate_equal_odds` exist in
`lambdas/delete_bet/shared/bet_validator.py`; `calculate_parlay_payout`
exists in both that file and `shared/bet_validator.py` (the two copies
differ and are both embedded below). -/

/-- `round(x, 2)`: Python banker's rounding at two decimal places, modelled
on exact rationals as round-half-to-even. -/
def roundHalfEven (q : ℚ) : ℤ :=
  let f := ⌊q⌋
  let r := q - f
  if r < 1 / 2 then f
  else if r > 1 / 2 then f + 1
  else if Even f then f else f + 1

/-- `round(x, 2)` at two decimal places. -/
def round2 (q : ℚ) : ℚ := (roundHalfEven (q * 100) : ℚ) / 100

/-- `american_to_decimal_odds(odds)`: `ValueError` on zero, else
`odds/100 + 1` for positive odds and `100/abs(odds) + 1` for negative. -/
def american_to_decimal_odds (odds : ℚ) : Except PyErr ℚ :=
  if odds = 0 then .error (.valueError "Odds cannot be zero")
  else if odds > 0 then .ok (odds / 100 + 1)
  else .ok (100 / |odds| + 1)

/-- `decimal_to_american_odds(decimal_odds)`: `ValueError` when `≤ 1.0`;
`(d-1)*100` when `d ≥ 2.0`, else `-100/(d-1)`. -/
def decimal_to_american_odds (decimal_odds : ℚ) : Except PyErr ℚ :=
  if decimal_odds ≤ 1 then .error (.valueError "Decimal odds must be greater than 1.0")
  else if decimal_odds ≥ 2 then .ok ((decimal_odds - 1) * 100)
  else .ok (-100 / (decimal_odds - 1))

/-- Model of the float power `combined_decimal ** (1.0 / num_legs)` (an
n-th root).  Floating point is outside the rational embedding, so the root
is modelled by the rational over-approximation `1 + (d-1)/n`, which, like
the real n-th root, maps `(1, ∞)` into `(1, ∞)` for `n ≥ 1`; no claim in
this development depends on its exact value. -/
def nthRootModel (d : ℚ) (n : ℕ) : ℚ := 1 + (d - 1) / (n : ℚ)

/-- `reverse_calculate_equal_odds(combined_odds, num_legs)` from
`lambdas/delete_bet/shared/bet_validator.py`. -/
def reverse_calculate_equal_odds (combined_odds : ℚ) (num_legs : ℕ) : Except PyErr ℚ :=
  if combined_odds = 0 then .error (.valueError "Combined odds cannot be zero")
  else if num_legs < 2 then .error (.valueError "Number of legs must be at least 2")
  else
    match american_to_decimal_odds combined_odds with
    | .error e => .error e
    | .ok combined_decimal =>
        match decimal_to_american_odds (nthRootModel combined_decimal num_legs) with
        | .error e => .error e
        | .ok individual_american => .ok (round2 individual_american)

/-- `reverse_calculate_equal_odds` applied to an arbitrary value (the
resolver passes dict contents through unchecked): `v == 0` is `False` for
non-numbers, so a non-numeric `v` passes the zero check and then raises
`TypeError` at the comparison `odds > 0` inside the conversion. -/
def reverse_calculate_equal_odds_val (v : Val) (num_legs : ℕ) : Except PyErr ℚ :=
  match v.toNum? with
  | some q => reverse_calculate_equal_odds q num_legs
  | none =>
      if num_legs < 2 then .error (.valueError "Number of legs must be at least 2")
      else .error (.typeError "unsupported operand type")

/-- The roundtrip `decimal_to_american_odds(american_to_decimal_odds(o))`. -/
def americanRoundtrip (o : ℚ) : Except PyErr ℚ :=
  (american_to_decimal_odds o).bind decimal_to_american_odds

lemma atd_pos (o : ℚ) (h : 0 < o) :
    american_to_decimal_odds o = .ok (o / 100 + 1) := by
  unfold american_to_decimal_odds
  rw [if_neg (ne_of_gt h), if_pos h]

lemma atd_neg (o : ℚ) (h : o < 0) :
    american_to_decimal_odds o = .ok (100 / -o + 1) := by
  unfold american_to_decimal_odds
  rw [if_neg (ne_of_lt h), if_neg (not_lt.mpr (le_of_lt h)), abs_of_neg h]

lemma dta_mid (d : ℚ) (h1 : 1 < d) (h2 : d < 2) :
    decimal_to_american_odds d = .ok (-100 / (d - 1)) := by
  unfold decimal_to_american_odds
  rw [if_neg (not_le.mpr h1), if_neg (by simpa using not_le.mpr h2)]

lemma dta_hi (d : ℚ) (h2 : 2 ≤ d) :
    decimal_to_american_odds d = .ok ((d - 1) * 100) := by
  unfold decimal_to_american_odds
  rw [if_neg (by linarith), if_pos (by simpa using h2)]

/-- C4 fails as stated: `o = 50` is nonzero and its decimal conversion
`1.5` is not `2.0`, yet the roundtrip returns `-200`, not `50`. -/
theorem C4_roundtrip_counterexample :
    (50 : ℚ) ≠ 0 ∧ american_to_decimal_odds 50 ≠ .ok 2 ∧
    americanRoundtrip 50 = .ok (-200) ∧ (-200 : ℚ) ≠ 50 := by
  have h50 : american_to_decimal_odds (50 : ℚ) = .ok (3 / 2) := by
    rw [atd_pos 50 (by norm_num)]
    norm_num
  refine ⟨by norm_num, ?_, ?_, by norm_num⟩
  · rw [h50]
    intro h
    have := Except.ok.inj h
    norm_num at this
  · rw [americanRoundtrip, h50]
    show decimal_to_american_odds (3 / 2) = .ok (-200)
    rw [dta_mid (3 / 2) (by norm_num) (by norm_num)]
    norm_num

/-- C4 (amended): for American odds of magnitude at least 100 whose decimal
conversion is not exactly 2.0, the roundtrip
`decimal_to_american_odds(american_to_decimal_odds(o))` recovers `o`
exactly (the embedding computes in exact rationals, so "within
floating-point rounding" is exact here).  The original claim is false for
`0 < |o| < 100`, see `C4_roundtrip_counterexample`. -/
theorem C4_roundtrip (o : ℚ) (h1 : 100 ≤ |o|)
    (h2 : american_to_decimal_odds o ≠ .ok 2) :
    americanRoundtrip o = .ok o := by
  have ho : o ≠ 0 := by
    intro h
    rw [h] at h1
    norm_num at h1
  rcases lt_or_gt_of_ne ho with hneg | hpos
  · -- negative odds: o ≤ -100, and o ≠ -100 because of h2
    have h1n : 100 ≤ -o := by rw [abs_of_neg hneg] at h1; exact h1
    have hne100 : o ≠ -100 := by
      intro h
      apply h2
      rw [h, atd_neg (-100) (by norm_num)]
      norm_num
    have hlt : o < -100 := lt_of_le_of_ne (by linarith) hne100
    have hgt100 : (100 : ℚ) < -o := by linarith
    have hfrac : 100 / -o < 1 := by
      rw [div_lt_one (by linarith)]
      exact hgt100
    have hfracpos : (0 : ℚ) < 100 / -o := by positivity
    rw [americanRoundtrip, atd_neg o hneg]
    show decimal_to_american_odds (100 / -o + 1) = .ok o
    rw [dta_mid (100 / -o + 1) (by linarith) (by linarith)]
    congr 1
    have hno : -o ≠ 0 := by linarith
    field_simp
  · -- positive odds: 100 ≤ o, and o ≠ 100 because of h2
    have h1p : 100 ≤ o := by rw [abs_of_pos hpos] at h1; exact h1
    have hne100 : o ≠ 100 := by
      intro h
      apply h2
      rw [h, atd_pos 100 (by norm_num)]
      norm_num
    have hgt : 100 < o := lt_of_le_of_ne h1p (Ne.symm hne100)
    have hfrac : (1 : ℚ) < o / 100 := by
      rw [lt_div_iff₀ (by norm_num : (0 : ℚ) < 100)]
      linarith
    rw [americanRoundtrip, atd_pos o hpos]
    show decimal_to_american_odds (o / 100 + 1) = .ok o
    rw [dta_hi (o / 100 + 1) (by linarith)]
    congr 1
    ring

/-- Concrete instantiation of `C4_roundtrip` at `o = -110`. -/
theorem C4_roundtrip_witness :
    100 ≤ |(-110 : ℚ)| ∧ american_to_decimal_odds (-110) ≠ .ok 2 ∧
    americanRoundtrip (-110) = .ok (-110) := by
  have hne : american_to_decimal_odds (-110 : ℚ) ≠ .ok 2 := by
    rw [atd_neg (-110) (by norm_num)]
    intro h
    have := Except.ok.inj h
    norm_num at this
  exact ⟨by norm_num, hne, C4_roundtrip (-110) (by norm_num) hne⟩

/-! ## `calculate_parlay_payout` — two divergent copies

Both copies read only `leg.get("odds")` from each leg, so legs are embedded
as their odds values: `some q` for a numeric odds, `none` for `None`. -/

/-- American-to-decimal conversion formula shared by both copies (for
nonzero odds): `odds/100 + 1` when positive, else `100/abs(odds) + 1`. -/
def decimalOdds (q : ℚ) : ℚ := if q > 0 then q / 100 + 1 else 100 / |q| + 1

/-- One iteration of the leg loop in `shared/bet_validator.py`'s
`calculate_parlay_payout`: `None` odds raise `ValueError`; this copy has no
zero check, so zero odds reach `100 / abs(odds)` and raise
`ZeroDivisionError`. -/
def sharedLegDecimal : Option ℚ → Except PyErr ℚ
  | none => .error (.valueError "Each leg must have odds")
  | some q =>
      if q > 0 then .ok (q / 100 + 1)
      else if q = 0 then .error .zeroDivisionError
      else .ok (100 / |q| + 1)

/-- One iteration of the leg loop in
`lambdas/delete_bet/shared/bet_validator.py`'s `calculate_parlay_payout`:
`None` and zero odds both raise `ValueError`, otherwise it defers to
`american_to_decimal_odds`. -/
def dbLegDecimal : Option ℚ → Except PyErr ℚ
  | none => .error (.valueError "Each leg must have odds")
  | some q =>
      if q = 0 then .error (.valueError "Leg odds cannot be zero")
      else american_to_decimal_odds q

/-- The `for leg in legs` loop building `decimal_odds_list`, stopping at the
first raised exception. -/
def legDecimals (f : Option ℚ → Except PyErr ℚ) : List (Option ℚ) → Except PyErr (List ℚ)
  | [] => .ok []
  | l :: rest =>
      match f l with
      | .error e => .error e
      | .ok d =>
          match legDecimals f rest with
          | .error e => .error e
          | .ok ds => .ok (d :: ds)

/-- `combined_decimal = 1.0; for dec in decimal_odds_list: combined_decimal *= dec`. -/
def listProd (l : List ℚ) : ℚ := l.foldl (fun a b => a * b) 1

/-- `calculate_parlay_payout(amount, legs)` from `shared/bet_validator.py`. -/
def calculate_parlay_payout (amount : ℚ) (legs : List (Option ℚ)) : Except PyErr ℚ :=
  if legs.length < 2 then .error (.valueError "Parlay must have at least 2 legs")
  else
    match legDecimals sharedLegDecimal legs with
    | .error e => .error e
    | .ok ds => .ok (round2 (amount * listProd ds))

namespace DeleteBet

/-- `calculate_parlay_payout(amount, legs)` from
`lambdas/delete_bet/shared/bet_validator.py`. -/
def calculate_parlay_payout (amount : ℚ) (legs : List (Option ℚ)) : Except PyErr ℚ :=
  if legs.length < 2 then .error (.valueError "Parlay must have at least 2 legs")
  else
    match legDecimals dbLegDecimal legs with
    | .error e => .error e
    | .ok ds => .ok (round2 (amount * listProd ds))

end DeleteBet

/-- Legs that pass both loops without raising: numeric, nonzero odds. -/
def goodLegs (legs : List (Option ℚ)) : Prop :=
  ∀ p ∈ legs, ∃ r : ℚ, p = some r ∧ r ≠ 0

lemma sharedLegDecimal_good (q : ℚ) (h : q ≠ 0) :
    sharedLegDecimal (some q) = .ok (decimalOdds q) := by
  rcases lt_trichotomy q 0 with hq | hq | hq
  · have h1 : ¬q > 0 := not_lt.mpr (le_of_lt hq)
    simp [sharedLegDecimal, decimalOdds, h1, h]
  · exact absurd hq h
  · simp [sharedLegDecimal, decimalOdds, hq]

lemma dbLegDecimal_good (q : ℚ) (h : q ≠ 0) :
    dbLegDecimal (some q) = .ok (decimalOdds q) := by
  rcases lt_trichotomy q 0 with hq | hq | hq
  · have h1 : ¬q > 0 := not_lt.mpr (le_of_lt hq)
    simp [dbLegDecimal, american_to_decimal_odds, decimalOdds, h1, h]
  · exact absurd hq h
  · simp [dbLegDecimal, american_to_decimal_odds, decimalOdds, hq, h]

lemma legDecimals_good (f : Option ℚ → Except PyErr ℚ)
    (hf : ∀ q : ℚ, q ≠ 0 → f (some q) = .ok (decimalOdds q)) :
    ∀ qs : List ℚ, (∀ q ∈ qs, q ≠ 0) →
      legDecimals f (qs.map some) = .ok (qs.map decimalOdds) := by
  intro qs
  induction qs with
  | nil => intro _; rfl
  | cons q rest ih =>
      intro hall
      have hq : q ≠ 0 := hall q (List.mem_cons_self q rest)
      have hrest := ih (fun r hr => hall r (List.mem_cons_of_mem q hr))
      simp only [List.map_cons, legDecimals, hf q hq, hrest]

lemma legDecimals_error (f : Option ℚ → Except PyErr ℚ)
    (hf : ∀ q : ℚ, q ≠ 0 → f (some q) = .ok (decimalOdds q)) :
    ∀ pre : List (Option ℚ), goodLegs pre → ∀ x post e, f x = .error e →
      legDecimals f (pre ++ x :: post) = .error e := by
  intro pre
  induction pre with
  | nil =>
      intro _ x post e hx
      simp only [List.nil_append, legDecimals, hx]
  | cons p rest ih =>
      intro hgood x post e hx
      obtain ⟨r, hp, hr⟩ := hgood p (List.mem_cons_self p rest)
      have hrest := ih (fun a ha => hgood a (List.mem_cons_of_mem p ha)) x post e hx
      simp only [List.cons_append, legDecimals, hp, hf r hr, List.append_eq, hrest]

/-- C6 fails as stated for the `shared/bet_validator.py` copy: a parlay with
a zero-odds leg raises `ZeroDivisionError`, not the `ValueError` parlay
domain error (the `delete_bet` copy does raise `ValueError` there), and
`ZeroDivisionError` is a different exception from any `ValueError`. -/
theorem C6_parlay_payout_counterexample :
    calculate_parlay_payout 10 [some 0, some (-110)] = .error .zeroDivisionError ∧
    DeleteBet.calculate_parlay_payout 10 [some 0, some (-110)]
      = .error (.valueError "Leg odds cannot be zero") ∧
    ∀ msg : String, PyErr.zeroDivisionError ≠ PyErr.valueError msg := by
  refine ⟨?_, ?_, fun msg h => PyErr.noConfusion h⟩
  · unfold calculate_parlay_payout
    rw [if_neg (by norm_num)]
    have h0 : sharedLegDecimal (some 0) = .error .zeroDivisionError := by
      unfold sharedLegDecimal
      norm_num
    have := legDecimals_error sharedLegDecimal sharedLegDecimal_good []
      (by intro p hp; cases hp) (some 0) [some (-110)] .zeroDivisionError h0
    simp only [List.nil_append] at this
    rw [this]
  · unfold DeleteBet.calculate_parlay_payout
    rw [if_neg (by norm_num)]
    have h0 : dbLegDecimal (some 0) = .error (.valueError "Leg odds cannot be zero") := by
      unfold dbLegDecimal
      norm_num
    have := legDecimals_error dbLegDecimal dbLegDecimal_good []
      (by intro p hp; cases hp) (some 0) [some (-110)]
      (.valueError "Leg odds cannot be zero") h0
    simp only [List.nil_append] at this
    rw [this]

/-- C6 (amended): both copies fail with the `ValueError` parlay domain error
when legs number fewer than 2 or when the first offending leg's odds is
`None`; on a first offending zero odds the `delete_bet` copy raises the
`ValueError` domain error but the `shared` copy raises `ZeroDivisionError`;
when every leg's odds is a nonzero number both return the wagered amount
times the product of the legs' decimal odds, rounded to 2 decimal places. -/
theorem C6_parlay_payout :
    (∀ (amount : ℚ) (legs : List (Option ℚ)), legs.length < 2 →
      calculate_parlay_payout amount legs
          = .error (.valueError "Parlay must have at least 2 legs") ∧
      DeleteBet.calculate_parlay_payout amount legs
          = .error (.valueError "Parlay must have at least 2 legs")) ∧
    (∀ (amount : ℚ) (qs : List ℚ), 2 ≤ qs.length → (∀ q ∈ qs, q ≠ 0) →
      calculate_parlay_payout amount (qs.map some)
          = .ok (round2 (amount * listProd (qs.map decimalOdds))) ∧
      DeleteBet.calculate_parlay_payout amount (qs.map some)
          = .ok (round2 (amount * listProd (qs.map decimalOdds)))) ∧
    (∀ (amount : ℚ) (pre post : List (Option ℚ)), goodLegs pre →
      2 ≤ (pre ++ none :: post).length →
      calculate_parlay_payout amount (pre ++ none :: post)
          = .error (.valueError "Each leg must have odds") ∧
      DeleteBet.calculate_parlay_payout amount (pre ++ none :: post)
          = .error (.valueError "Each leg must have odds")) ∧
    (∀ (amount : ℚ) (pre post : List (Option ℚ)), goodLegs pre →
      2 ≤ (pre ++ some 0 :: post).length →
      calculate_parlay_payout amount (pre ++ some 0 :: post)
          = .error .zeroDivisionError ∧
      DeleteBet.calculate_parlay_payout amount (pre ++ some 0 :: post)
          = .error (.valueError "Leg odds cannot be zero")) := by
  refine ⟨?_, ?_, ?_, ?_⟩
  · intro amount legs hlen
    constructor
    · unfold calculate_parlay_payout
      rw [if_pos hlen]
    · unfold DeleteBet.calculate_parlay_payout
      rw [if_pos hlen]
  · intro amount qs hlen hall
    have hlen2 : ¬((qs.map some).length < 2) := by
      rw [List.length_map]
      omega
    constructor
    · unfold calculate_parlay_payout
      rw [if_neg hlen2, legDecimals_good sharedLegDecimal sharedLegDecimal_good qs hall]
    · unfold DeleteBet.calculate_parlay_payout
      rw [if_neg hlen2, legDecimals_good dbLegDecimal dbLegDecimal_good qs hall]
  · intro amount pre post hpre hlen
    have hlen2 : ¬((pre ++ none :: post).length < 2) := by omega
    have hs : sharedLegDecimal none = .error (.valueError "Each leg must have odds") := rfl
    have hd : dbLegDecimal none = .error (.valueError "Each leg must have odds") := rfl
    constructor
    · unfold calculate_parlay_payout
      rw [if_neg hlen2,
        legDecimals_error sharedLegDecimal sharedLegDecimal_good pre hpre none post _ hs]
    · unfold DeleteBet.calculate_parlay_payout
      rw [if_neg hlen2,
        legDecimals_error dbLegDecimal dbLegDecimal_good pre hpre none post _ hd]
  · intro amount pre post hpre hlen
    have hlen2 : ¬((pre ++ some 0 :: post).length < 2) := by omega
    have hs : sharedLegDecimal (some 0) = .error .zeroDivisionError := by
      unfold sharedLegDecimal
      norm_num
    have hd : dbLegDecimal (some 0) = .error (.valueError "Leg odds cannot be zero") := by
      unfold dbLegDecimal
      norm_num
    constructor
    · unfold calculate_parlay_payout
      rw [if_neg hlen2,
        legDecimals_error sharedLegDecimal sharedLegDecimal_good pre hpre (some 0) post _ hs]
    · unfold DeleteBet.calculate_parlay_payout
      rw [if_neg hlen2,
        legDecimals_error dbLegDecimal dbLegDecimal_good pre hpre (some 0) post _ hd]

/-- Concrete instantiation of `C6_parlay_payout`: the spec's own example,
a 2-leg parlay at odds `-110` and `-120` with `amount = 25`, pays
`round(25 * (21/11) * (11/6), 2) = 87.5` under both copies. -/
theorem C6_parlay_payout_witness :
    calculate_parlay_payout 25 [some (-110), some (-120)] = .ok (round2 (25 * (7 / 2))) ∧
    DeleteBet.calculate_parlay_payout 25 [some (-110), some (-120)]
      = .ok (round2 (25 * (7 / 2))) := by
  have h := (C6_parlay_payout.2.1) 25 [-110, -120] (by norm_num)
    (by
      intro q hq
      simp only [List.mem_cons, List.not_mem_nil, or_false] at hq
      rcases hq with h1 | h1 <;> rw [h1] <;> norm_num)
  have hprod : listProd ([(-110 : ℚ), -120].map decimalOdds) = 7 / 2 := by
    unfold listProd decimalOdds
    norm_num
  rw [hprod] at h
  exact h

/-! ## Bet Schema Validator — `shared/bet_validator.py`

`validate_bet_leg`, `validate_single_bet` and `validate_parlay` are
textually identical in `shared/bet_validator.py` and
`lambdas/delete_bet/shared/bet_validator.py`; one embedding covers both.
The validators return the `(is_valid, error_message)` pair; the only
mutation the source performs (assigning a fresh `id` to parlay legs during
`validate_parlay`) does not affect the returned verdict and is not
modelled. -/

/-- Whether `p` is a prefix of the second character list. -/
def listStartsWith : List Char → List Char → Bool
  | [], _ => true
  | _ :: _, [] => false
  | p :: ps, c :: cs => p == c && listStartsWith ps cs

/-- Whether `pat` occurs as a contiguous run inside the second list. -/
def listContains (pat : List Char) : List Char → Bool
  | [] => pat.isEmpty
  | c :: cs => listStartsWith pat (c :: cs) || listContains pat cs

/-- Python substring test `pat in s`. -/
def strContains (s pat : String) : Bool :=
  if pat = "" then true else listContains pat.data s.data

/-- Python `field in v` for a string literal `field`: key membership for
dicts, substring for strings, elementwise `==` for lists, `TypeError`
otherwise (e.g. `"sport" in 1`). -/
def pyContains (v : Val) (field : String) : Except PyErr Bool :=
  match v with
  | .obj l => .ok (Val.lookup l field).isSome
  | .str s => .ok (strContains s field)
  | .arr l => .ok (l.any (fun e => e.pyEq (.str field)))
  | _ => .error (.typeError "argument of type is not iterable")

/-- `isinstance(v, (int, float))`; Python `bool` is an `int` subclass. -/
def isNumberVal : Val → Bool
  | .num _ => true
  | .bool _ => true
  | _ => false

/-- `isinstance(v, str) and v.strip()`: a string with at least one
non-whitespace character. -/
def isNonEmptyStrVal : Val → Bool
  | .str s => s.data.any (fun c => !c.isWhitespace)
  | _ => false

/-- Numeric value of a number-like `Val` (only read after `isNumberVal`). -/
def numValD (v : Val) : ℚ := (Val.toNum? v).getD 0

def isLeapYear (y : ℕ) : Bool :=
  (y % 4 == 0 && y % 100 != 0) || y % 400 == 0

def daysInMonth (y m : ℕ) : ℕ :=
  if m = 2 then (if isLeapYear y then 29 else 28)
  else if m = 4 ∨ m = 6 ∨ m = 9 ∨ m = 11 then 30
  else 31

/-- Splitting a character list at a separator character, Python
`s.split(sep)` style (`""` splits to `[""]`, separators at the ends
produce empty groups). -/
def splitOnChar (sep : Char) : List Char → List (List Char)
  | [] => [[]]
  | x :: rest =>
      let r := splitOnChar sep rest
      if x == sep then [] :: r
      else
        match r with
        | [] => [[x]]
        | g :: gs => (x :: g) :: gs

def isDigitChars (l : List Char) : Bool :=
  !l.isEmpty && l.all Char.isDigit

/-- Decimal value of a digit run. -/
def charsToNat (l : List Char) : ℕ :=
  l.foldl (fun acc c => acc * 10 + (c.toNat - 48)) 0

/-- Model of `datetime.strptime(s, "%Y-%m-%d")` succeeding: three dash
separated digit groups (year 1 to 4 digits, month/day 1 to 2, matching
CPython's tolerant field widths) forming a real calendar date. -/
def strptimeYmd (s : String) : Bool :=
  match splitOnChar (Char.ofNat 45) s.data with
  | [ys, ms, ds] =>
      if isDigitChars ys && isDigitChars ms && isDigitChars ds
          && decide (ys.length ≤ 4) && decide (ms.length ≤ 2) && decide (ds.length ≤ 2) then
        let y := charsToNat ys
        let m := charsToNat ms
        let d := charsToNat ds
        decide (1 ≤ y) && decide (1 ≤ m) && decide (m ≤ 12)
          && decide (1 ≤ d) && decide (d ≤ daysInMonth y m)
      else false
  | _ => false

def requiredLegFields : List String := ["sport", "teams", "betType", "selection", "odds"]

/-- The `for field in required_fields: if field not in x` loop, returning
the first missing field (Python `in` can raise `TypeError`). -/
def firstMissing (v : Val) : List String → Except PyErr (Option String)
  | [] => .ok none
  | f :: rest =>
      match pyContains v f with
      | .error e => .error e
      | .ok c => if c then firstMissing v rest else .ok (some f)

/-- `validate_bet_leg(leg)`.  A non-dict leg either raises `TypeError` at
the membership loop (`None`/bool/number legs) or, for strings and lists
that happen to pass the membership loop, at the `leg["odds"]` subscript. -/
def validate_bet_leg (leg : Val) : Except PyErr (Bool × Option String) :=
  match firstMissing leg requiredLegFields with
  | .error e => .error e
  | .ok (some f) => .ok (false, some ("Missing required field: " ++ f))
  | .ok none =>
      match leg with
      | .obj l =>
          let odds := (Val.lookup l "odds").getD .null
          if !isNumberVal odds then .ok (false, some "Odds must be a number")
          else
            let sport := (Val.lookup l "sport").getD .null
            if !isNonEmptyStrVal sport then .ok (false, some "Sport must be a non-empty string")
            else
              let teams := (Val.lookup l "teams").getD .null
              if !isNonEmptyStrVal teams then .ok (false, some "Teams must be a non-empty string")
              else
                let selection := (Val.lookup l "selection").getD .null
                if !isNonEmptyStrVal selection then
                  .ok (false, some "Selection must be a non-empty string")
                else .ok (true, none)
      | _ => .error (.typeError "indices must be integers")

def requiredSingleFields : List String :=
  ["type", "amount", "date", "sport", "teams", "betType", "selection", "odds"]

/-- `validate_single_bet(data)`.  The date format check wraps `strptime` in
`try/except ValueError` only: a non-string date value raises `TypeError`,
which escapes. -/
def validate_single_bet (data : Val) : Except PyErr (Bool × Option String) :=
  match data with
  | .obj l =>
      let t := (Val.lookup l "type").getD .null
      if !(t.pyEq (.str "single")) then .ok (false, some "Type must be 'single'")
      else
        match requiredSingleFields.find? (fun f => (Val.lookup l f).isNone) with
        | some f => .ok (false, some ("Missing required field: " ++ f))
        | none =>
            let amount := (Val.lookup l "amount").getD .null
            if !isNumberVal amount || decide (numValD amount ≤ 0) then
              .ok (false, some "Amount must be a positive number")
            else
              let odds := (Val.lookup l "odds").getD .null
              if !isNumberVal odds then .ok (false, some "Odds must be a number")
              else
                match (Val.lookup l "date").getD .null with
                | .str s =>
                    if strptimeYmd s then .ok (true, none)
                    else .ok (false, some "Date must be in YYYY-MM-DD format")
                | _ => .error (.typeError "strptime argument 1 must be str")
  | _ => .error (.attributeError "object has no attribute get")

/-- Decimal digits of `n` (24 digits of fuel, enough for any index the
pipeline can produce). -/
def natDigits : ℕ → ℕ → List Char
  | 0, _ => []
  | fuel + 1, n =>
      if n = 0 then []
      else natDigits fuel (n / 10) ++ [Char.ofNat (48 + n % 10)]

/-- Decimal rendering of a natural number (the `f"{i}"` interpolation of
loop indices and counts in messages). -/
def natToString (n : ℕ) : String :=
  if n = 0 then "0" else String.mk (natDigits 24 n)

/-- The `for i, leg in enumerate(data["legs"])` loop of `validate_parlay`
(1-based indices in messages). -/
def validateLegsLoop : List Val → ℕ → Except PyErr (Bool × Option String)
  | [], _ => .ok (true, none)
  | leg :: rest, i =>
      match validate_bet_leg leg with
      | .error e => .error e
      | .ok (true, _) => validateLegsLoop rest (i + 1)
      | .ok (false, e) => .ok (false, some ("Leg " ++ natToString i ++ ": " ++ e.getD "None"))

def requiredParlayFields : List String := ["type", "amount", "date", "legs"]

/-- `validate_parlay(data)`. -/
def validate_parlay (data : Val) : Except PyErr (Bool × Option String) :=
  match data with
  | .obj l =>
      let t := (Val.lookup l "type").getD .null
      if !(t.pyEq (.str "parlay")) then .ok (false, some "Type must be 'parlay'")
      else
        match requiredParlayFields.find? (fun f => (Val.lookup l f).isNone) with
        | some f => .ok (false, some ("Missing required field: " ++ f))
        | none =>
            let amount := (Val.lookup l "amount").getD .null
            if !isNumberVal amount || decide (numValD amount ≤ 0) then
              .ok (false, some "Amount must be a positive number")
            else
              match (Val.lookup l "legs").getD .null with
              | .arr legs =>
                  if legs.length < 2 then .ok (false, some "Parlay must have at least 2 legs")
                  else
                    match (Val.lookup l "date").getD .null with
                    | .str s =>
                        if strptimeYmd s then validateLegsLoop legs 1
                        else .ok (false, some "Date must be in YYYY-MM-DD format")
                    | _ => .error (.typeError "strptime argument 1 must be str")
              | _ => .ok (false, some "Legs must be a list")
  | _ => .error (.attributeError "object has no attribute get")

lemma firstMissing_obj (kv : List (String × Val)) (fields : List String) :
    firstMissing (.obj kv) fields
      = .ok (fields.find? (fun f => (Val.lookup kv f).isNone)) := by
  induction fields with
  | nil => rfl
  | cons f rest ih =>
      cases hl : Val.lookup kv f with
      | none => simp [firstMissing, pyContains, hl, List.find?]
      | some v => simp [firstMissing, pyContains, hl, List.find?, ih]

lemma validate_bet_leg_obj_total (kv : List (String × Val)) :
    ∃ p, validate_bet_leg (.obj kv) = .ok p := by
  simp only [validate_bet_leg, firstMissing_obj]
  repeat' split
  all_goals first
    | exact ⟨_, rfl⟩
    | simp_all

lemma validateLegsLoop_total (legs : List Val)
    (h : ∀ leg ∈ legs, ∃ kv, leg = Val.obj kv) :
    ∀ i, ∃ p, validateLegsLoop legs i = .ok p := by
  induction legs with
  | nil => intro i; exact ⟨_, rfl⟩
  | cons leg rest ih =>
      intro i
      obtain ⟨kv, hkv⟩ := h leg (List.mem_cons_self leg rest)
      obtain ⟨p, hp⟩ := validate_bet_leg_obj_total kv
      rw [← hkv] at hp
      obtain ⟨q, hq⟩ := ih (fun a ha => h a (List.mem_cons_of_mem leg ha)) (i + 1)
      simp only [validateLegsLoop, hp]
      rcases p with ⟨b, e⟩
      cases b
      · exact ⟨_, rfl⟩
      · exact ⟨q, hq⟩

/-- C10 fails as stated: this parlay dict has the string date
`"2024-01-15"`, yet `validate_parlay` raises `TypeError` (from the
`field not in leg` membership test on the non-dict leg `1`) instead of
returning an `(is_valid, error_message)` pair. -/
theorem C10_validator_counterexample :
    Val.lookup [("type", Val.str "parlay"), ("amount", Val.num 10),
        ("date", Val.str "2024-01-15"), ("legs", Val.arr [Val.num 1, Val.num 2])] "date"
      = some (.str "2024-01-15") ∧
    validate_parlay (.obj [("type", Val.str "parlay"), ("amount", Val.num 10),
        ("date", Val.str "2024-01-15"), ("legs", Val.arr [Val.num 1, Val.num 2])])
      = .error (.typeError "argument of type is not iterable") := by
  exact ⟨rfl, rfl⟩

/-- C10 (amended): `validate_single_bet` returns an `(is_valid,
error_message)` pair without raising for every dict whose `date` value (if
present) is a string, and `validate_parlay` does so additionally provided
every element of its `legs` list is a dict (a non-dict leg raises
`TypeError` in the membership loop even when the date is a string); both
raise `TypeError` instead of returning a verdict when the date check is
reached with a non-string date value. -/
theorem C10_validator_totality :
    (∀ l : List (String × Val),
      (∀ v, Val.lookup l "date" = some v → ∃ s, v = Val.str s) →
      ∃ p, validate_single_bet (.obj l) = .ok p) ∧
    (∀ l : List (String × Val),
      (∀ v, Val.lookup l "date" = some v → ∃ s, v = Val.str s) →
      (∀ legs, Val.lookup l "legs" = some (.arr legs) →
        ∀ leg ∈ legs, ∃ kv, leg = Val.obj kv) →
      ∃ p, validate_parlay (.obj l) = .ok p) ∧
    (∀ (l : List (String × Val)) (d : Val) (qa qo : ℚ),
      Val.lookup l "type" = some (.str "single") →
      (∀ f ∈ requiredSingleFields, (Val.lookup l f).isSome) →
      Val.lookup l "amount" = some (.num qa) → 0 < qa →
      Val.lookup l "odds" = some (.num qo) →
      Val.lookup l "date" = some d → (∀ s, d ≠ .str s) →
      validate_single_bet (.obj l) = .error (.typeError "strptime argument 1 must be str")) ∧
    (∀ (l : List (String × Val)) (d : Val) (qa : ℚ) (legs : List Val),
      Val.lookup l "type" = some (.str "parlay") →
      (∀ f ∈ requiredParlayFields, (Val.lookup l f).isSome) →
      Val.lookup l "amount" = some (.num qa) → 0 < qa →
      Val.lookup l "legs" = some (.arr legs) → 2 ≤ legs.length →
      Val.lookup l "date" = some d → (∀ s, d ≠ .str s) →
      validate_parlay (.obj l) = .error (.typeError "strptime argument 1 must be str")) := by
  refine ⟨?_, ?_, ?_, ?_⟩
  · intro l hdate
    simp only [validate_single_bet]
    split
    · exact ⟨_, rfl⟩
    · split
      · exact ⟨_, rfl⟩
      next hfind =>
        split
        · exact ⟨_, rfl⟩
        · split
          · exact ⟨_, rfl⟩
          · have hdp := List.find?_eq_none.mp hfind "date" (by simp [requiredSingleFields])
            cases hv : Val.lookup l "date" with
            | none => rw [hv] at hdp; simp at hdp
            | some v =>
                obtain ⟨s, hs⟩ := hdate v hv
                rw [hs]
                simp only [Option.getD_some]
                split <;> exact ⟨_, rfl⟩
  · intro l hdate hlegs
    simp only [validate_parlay]
    split
    · exact ⟨_, rfl⟩
    · split
      · exact ⟨_, rfl⟩
      next hfind =>
        split
        · exact ⟨_, rfl⟩
        · have hdp := List.find?_eq_none.mp hfind "date" (by simp [requiredParlayFields])
          have hdv : ∃ s, (Val.lookup l "date").getD .null = .str s := by
            cases hv : Val.lookup l "date" with
            | none => rw [hv] at hdp; simp at hdp
            | some v =>
                obtain ⟨s, hs⟩ := hdate v hv
                exact ⟨s, by rw [hs]; rfl⟩
          obtain ⟨s, hsval⟩ := hdv
          cases hw : Val.lookup l "legs" with
          | none => exact ⟨_, rfl⟩
          | some w =>
              simp only [Option.getD_some]
              cases w with
              | arr legs =>
                  show ∃ p,
                    (if legs.length < 2 then
                        Except.ok (false, some "Parlay must have at least 2 legs")
                      else
                        match (Val.lookup l "date").getD Val.null with
                        | Val.str s =>
                            if strptimeYmd s = true then validateLegsLoop legs 1
                            else Except.ok (false, some "Date must be in YYYY-MM-DD format")
                        | _ => Except.error (PyErr.typeError "strptime argument 1 must be str"))
                      = .ok p
                  by_cases hlt : legs.length < 2
                  · rw [if_pos hlt]
                    exact ⟨_, rfl⟩
                  · rw [if_neg hlt, hsval]
                    show ∃ p, (if strptimeYmd s = true then validateLegsLoop legs 1
                        else Except.ok (false, some "Date must be in YYYY-MM-DD format"))
                        = .ok p
                    by_cases hsp : strptimeYmd s = true
                    · rw [if_pos hsp]
                      exact validateLegsLoop_total legs (hlegs legs hw) 1
                    · rw [if_neg hsp]
                      exact ⟨_, rfl⟩
              | null => exact ⟨_, rfl⟩
              | bool b => exact ⟨_, rfl⟩
              | num q => exact ⟨_, rfl⟩
              | str t => exact ⟨_, rfl⟩
              | obj kv => exact ⟨_, rfl⟩
  · intro l d qa qo htype hfields hamount hqa hodds hdate hd
    have hnle : ¬(qa ≤ 0) := not_le.mpr hqa
    simp only [validate_single_bet]
    split
    next hcond =>
        exfalso
        rw [htype] at hcond
        simp [Val.pyEq, Val.toNum?] at hcond
    next =>
      split
      next f heq =>
          exfalso
          have hpf := List.find?_some heq
          have hmem := List.mem_of_find?_eq_some heq
          have h2 := hfields f hmem
          simp only [Option.isNone_iff_eq_none] at hpf
          rw [hpf] at h2
          simp at h2
      next =>
        split
        next hcond2 =>
            exfalso
            rw [hamount] at hcond2
            simp [isNumberVal, numValD, Val.toNum?] at hcond2
            exact hnle hcond2
        next =>
          split
          next hcond3 =>
              exfalso
              rw [hodds] at hcond3
              simp [isNumberVal] at hcond3
          next =>
            split
            next s heq =>
                exfalso
                rw [hdate] at heq
                simp only [Option.getD_some] at heq
                exact hd s heq
            next => rfl
  · intro l d qa legs htype hfields hamount hqa hlegs hlen hdate hd
    have hnle : ¬(qa ≤ 0) := not_le.mpr hqa
    simp only [validate_parlay]
    split
    next hcond =>
        exfalso
        rw [htype] at hcond
        simp [Val.pyEq, Val.toNum?] at hcond
    next =>
      split
      next f heq =>
          exfalso
          have hpf := List.find?_some heq
          have hmem := List.mem_of_find?_eq_some heq
          have h2 := hfields f hmem
          simp only [Option.isNone_iff_eq_none] at hpf
          rw [hpf] at h2
          simp at h2
      next =>
        split
        next hcond2 =>
            exfalso
            rw [hamount] at hcond2
            simp [isNumberVal, numValD, Val.toNum?] at hcond2
            exact hnle hcond2
        next =>
          split
          next legs2 heq =>
              have hleq : legs2 = legs := by
                rw [hlegs] at heq
                simp only [Option.getD_some] at heq
                exact (Val.arr.inj heq.symm)
              subst hleq
              split
              next hlt => exact absurd hlt (by omega)
              next =>
                split
                next s heq2 =>
                    exfalso
                    rw [hdate] at heq2
                    simp only [Option.getD_some] at heq2
                    exact hd s heq2
                next => rfl
          next hnoarr =>
              exfalso
              apply hnoarr legs
              rw [hlegs]
              rfl

/-- Concrete instantiation of `C10_validator_totality`: the degenerate
single bet `{}` still gets a verdict, and a single bet that is complete and
well-typed except for a numeric `date` value raises `TypeError`. -/
theorem C10_validator_totality_witness :
    (∃ p, validate_single_bet (.obj []) = .ok p) ∧
    validate_single_bet (.obj [("type", Val.str "single"), ("amount", Val.num 50),
        ("date", Val.num 5), ("sport", Val.str "NFL"), ("teams", Val.str "A vs B"),
        ("betType", Val.str "spread"), ("selection", Val.str "A -3.5"),
        ("odds", Val.num (-110))])
      = .error (.typeError "strptime argument 1 must be str") := by
  constructor
  · exact C10_validator_totality.1 [] (fun v hv => by cases hv)
  · exact C10_validator_totality.2.2.1 _ (Val.num 5) 50 (-110) rfl
      (by
        intro f hf
        simp only [requiredSingleFields, List.mem_cons, List.not_mem_nil, or_false] at hf
        rcases hf with h | h | h | h | h | h | h | h <;> subst h <;> rfl)
      rfl (by norm_num) rfl rfl (fun s h => Val.noConfusion h)

/-! ## Same-Game-Parlay Odds Resolver — `shared/betslip_parser.py`

`_handle_same_game_parlay_odds(legs, combined_odds)`: group legs by
truthy `teams` value (a Python dict keyed by the teams value, insertion
ordered), then per group resolve a combined-odds value and rewrite leg
odds.  The legs are arbitrary values produced from untrusted JSON, so the
embedding keeps full Python semantics: `.get` on a non-dict leg raises
`AttributeError` in the grouping loop, an unhashable (list/dict) teams
value raises `TypeError` at the dict subscript, and a non-numeric resolved
combined odds raises `TypeError` inside `reverse_calculate_equal_odds`
(only `ValueError`/`ZeroDivisionError` are caught). -/

/-- `leg.get("teams", "")` on a value already known to be a dict
(grouping guarantees this for all grouped indices). -/
def teamsD (leg : Val) : Val := Val.getD leg "teams" (.str "")

/-- `leg.get("odds")` on a value already known to be a dict. -/
def oddsD (leg : Val) : Val := Val.getD leg "odds" .null

def Val.isNull : Val → Bool
  | .null => true
  | _ => false

/-- `v.get(key, default)` raising `AttributeError` on non-dicts. -/
def pyGetD (v : Val) (key : String) (dflt : Val) : Except PyErr Val :=
  match v with
  | .obj l => .ok ((Val.lookup l key).getD dflt)
  | _ => .error (.attributeError "object has no attribute get")

/-- `enumerate(legs)` starting at index `i`. -/
def enumFrom (i : ℕ) : List Val → List (ℕ × Val)
  | [] => []
  | x :: xs => (i, x) :: enumFrom (i + 1) xs

/-- `same_game_groups[teams].append(idx)` on the insertion-ordered dict of
groups: extend the (unique) group whose key is `==`-equal to `t`, or append
a new group. -/
def addToGroups (t : Val) (i : ℕ) : List (Val × List ℕ) → List (Val × List ℕ)
  | [] => [(t, [i])]
  | (k, is) :: rest =>
      if k.pyEq t then (k, is ++ [i]) :: rest
      else (k, is) :: addToGroups t i rest

/-- The grouping loop `for idx, leg in enumerate(legs)` of
`_handle_same_game_parlay_odds`. -/
def computeGroups : List (ℕ × Val) → List (Val × List ℕ) → Except PyErr (List (Val × List ℕ))
  | [], acc => .ok acc
  | (i, leg) :: rest, acc =>
      match pyGetD leg "teams" (.str "") with
      | .error e => .error e
      | .ok t =>
          if t.truthy then
            if t.hashable then computeGroups rest (addToGroups t i acc)
            else .error (.typeError "unhashable type")
          else computeGroups rest acc

/-- `legs[idx]` (indices produced by grouping are always in bounds). -/
def legAt (legs : List Val) (i : ℕ) : Val := (legs.get? i).getD .null

/-- `odds is not None and odds != 0` for `odds = legs[idx].get("odds")`. -/
def legNonMissing (leg : Val) : Bool :=
  !(oddsD leg).isNull && !(oddsD leg).pyEq (.num 0)

/-- The `Case 1` scan: first leg (in index order) with a truthy
`combinedOdds` or `sameGameParlayOdds` field; `Val.null` when none. -/
def case1Scan (legs : List Val) : List ℕ → Val
  | [] => .null
  | i :: rest =>
      let leg := legAt legs i
      let g := Val.pyOr (Val.getD leg "combinedOdds" .null)
        (Val.pyOr (Val.getD leg "sameGameParlayOdds" .null) .null)
      if g.isNull then case1Scan legs rest else g

/-- `len(set(odds_values)) == 1`, with `set()` raising `TypeError` on an
unhashable element. -/
def setAllEqual (vals : List Val) : Except PyErr Bool :=
  if vals.all Val.hashable then
    match vals with
    | [] => .ok true
    | x :: xs => .ok (xs.all (fun y => x.pyEq y))
  else .error (.typeError "unhashable type")

/-- `legs[idx]["odds"] = individual_odds`. -/
def setOddsAt (legs : List Val) (i : ℕ) (v : Val) : List Val :=
  legs.set i
    (match legAt legs i with
     | .obj kv => .obj (Val.setKey kv "odds" v)
     | other => other)

def setOddsMany (legs : List Val) (targets : List ℕ) (v : Val) : List Val :=
  targets.foldl (fun ls i => setOddsAt ls i v) legs

/-- `odds_values`: the odds of the group legs that are neither `None` nor
zero, in index order. -/
def groupOddsVals (legs : List Val) (indices : List ℕ) : List Val :=
  (indices.filter (fun i => legNonMissing (legAt legs i))).map
    (fun i => oddsD (legAt legs i))

/-- `missing_odds_indices`. -/
def groupMissing (legs : List Val) (indices : List ℕ) : List ℕ :=
  indices.filter (fun i => !legNonMissing (legAt legs i))

/-- `Case 3`: fall back to the parlay-level combined odds only when it is
present, nonzero, and every leg of the group is missing odds. -/
def case3Apply (combined_odds : Val) (legs : List Val) (indices : List ℕ)
    (g : Val) (recalc : Bool) : Val × Bool :=
  if g.isNull && !combined_odds.isNull && !(combined_odds.pyEq (.num 0))
      && ((groupMissing legs indices).length == indices.length) then
    (combined_odds, true)
  else (g, recalc)

/-- Resolution of the group combined odds (`Case 1` to `Case 3`),
returning the resolved value (`Val.null` for unresolved) and the
`should_recalculate` flag. -/
def resolveCombined (combined_odds : Val) (legs : List Val) (indices : List ℕ) :
    Except PyErr (Val × Bool) :=
  if (case1Scan legs indices).isNull
      && ((groupOddsVals legs indices).length == indices.length) then
    match setAllEqual (groupOddsVals legs indices) with
    | .error e => .error e
    | .ok true =>
        .ok (case3Apply combined_odds legs indices
          ((groupOddsVals legs indices).headD .null) true)
    | .ok false => .ok (case3Apply combined_odds legs indices .null false)
  else .ok (case3Apply combined_odds legs indices (case1Scan legs indices) false)

/-- Processing of one same-game group: resolve a combined-odds value by
the three-case priority, then recalculate and assign individual odds,
catching only `ValueError`/`ZeroDivisionError` from the odds math. -/
def processGroup (combined_odds : Val) (legs : List Val) (indices : List ℕ) :
    Except PyErr (List Val) :=
  if indices.length < 2 then .ok legs
  else
    match resolveCombined combined_odds legs indices with
    | .error e => .error e
    | .ok (g, recalc) =>
        if !g.isNull && !(g.pyEq (.num 0)) then
          match reverse_calculate_equal_odds_val g indices.length with
          | .ok v =>
              .ok (setOddsMany legs
                (if recalc then indices else groupMissing legs indices) (.num v))
          | .error (.valueError _) => .ok legs
          | .error .zeroDivisionError => .ok legs
          | .error e => .error e
        else .ok legs

/-- The `for teams, indices in same_game_groups.items()` loop. -/
def processGroups (combined_odds : Val) :
    List (Val × List ℕ) → List Val → Except PyErr (List Val)
  | [], legs => .ok legs
  | (_, indices) :: rest, legs =>
      match processGroup combined_odds legs indices with
      | .error e => .error e
      | .ok legs2 => processGroups combined_odds rest legs2

/-- `_handle_same_game_parlay_odds(legs, combined_odds)`. -/
def handle_same_game_parlay_odds (legs : List Val) (combined_odds : Val) :
    Except PyErr (List Val) :=
  match computeGroups (enumFrom 0 legs) [] with
  | .error e => .error e
  | .ok groups => processGroups combined_odds groups legs


lemma pyEq_str_iff (x : Val) (s : String) : x.pyEq (.str s) = true ↔ x = .str s := by
  cases x <;> simp [Val.pyEq, Val.toNum?]

lemma pyEq_symm (a b : Val) : a.pyEq b = b.pyEq a := by
  cases a <;> cases b <;>
    simp [Val.pyEq, Val.toNum?, BEq.comm]

lemma pyEq_str_iff_left (x : Val) (s : String) :
    (Val.str s).pyEq x = true ↔ x = .str s := by
  rw [pyEq_symm]
  exact pyEq_str_iff x s

lemma pyEq_refl_hashable (a : Val) (h : a.hashable = true) : a.pyEq a = true := by
  cases a <;> simp_all [Val.pyEq, Val.toNum?, Val.hashable]

lemma pyEq_trans_hashable (a b c : Val) (hh : a.hashable = true)
    (h1 : a.pyEq b = true) (h2 : a.pyEq c = true) : b.pyEq c = true := by
  cases a <;> cases b <;> cases c <;>
    simp_all [Val.pyEq, Val.toNum?, Val.hashable]

/-- Indices contributed to group class `s` by a run of `enumerate` pairs. -/
def sIdx (s : String) (pairs : List (ℕ × Val)) : List ℕ :=
  (pairs.filter (fun p => (teamsD p.2).pyEq (.str s))).map Prod.fst

/-- The group of leg indices whose `teams` value is exactly the string
`s` (for nonempty `s`, these are precisely the indices the resolver
groups under the key `s`). -/
def sGroupIndices (legs : List Val) (s : String) : List ℕ :=
  sIdx s (enumFrom 0 legs)

/-- Keys of distinct groups are never `==`-equal (a Python dict cannot
hold two `==`-equal keys). -/
def keysDistinct (gs : List (Val × List ℕ)) : Prop :=
  List.Pairwise (fun a b => a.1.pyEq b.1 = false) gs

/-- Every grouped index originates from an enumerate pair whose leg has a
truthy teams value `==`-equal to the group key. -/
def groupsOrigin (P : List (ℕ × Val)) (gs : List (Val × List ℕ)) : Prop :=
  ∀ g ∈ gs, ∀ j ∈ g.2, ∃ leg, (j, leg) ∈ P ∧ g.1.pyEq (teamsD leg) = true ∧
    (teamsD leg).truthy = true

/-- The group in class `s` (when it exists) holds exactly the indices of
the pairs whose teams value is the string `s`. -/
def sGroupContent (s : String) (P : List (ℕ × Val)) (gs : List (Val × List ℕ)) : Prop :=
  (∀ g ∈ gs, g.1.pyEq (.str s) = true → g.2 = sIdx s P) ∧
  (sIdx s P ≠ [] → ∃ g ∈ gs, g.1.pyEq (.str s) = true)

def groupsInv (s : String) (P : List (ℕ × Val)) (gs : List (Val × List ℕ)) : Prop :=
  keysDistinct gs ∧ groupsOrigin P gs ∧ sGroupContent s P gs

lemma sIdx_append (s : String) (P Q : List (ℕ × Val)) :
    sIdx s (P ++ Q) = sIdx s P ++ sIdx s Q := by
  simp [sIdx, List.filter_append]

lemma sIdx_cons_match (s : String) (i : ℕ) (leg : Val) (P : List (ℕ × Val))
    (h : (teamsD leg).pyEq (.str s) = true) :
    sIdx s ((i, leg) :: P) = i :: sIdx s P := by
  simp [sIdx, List.filter_cons, h]

lemma sIdx_cons_nomatch (s : String) (i : ℕ) (leg : Val) (P : List (ℕ × Val))
    (h : (teamsD leg).pyEq (.str s) = false) :
    sIdx s ((i, leg) :: P) = sIdx s P := by
  simp [sIdx, List.filter_cons, h]

lemma addToGroups_keys (t : Val) (i : ℕ) :
    ∀ gs, ∀ g2 ∈ addToGroups t i gs, (∃ is, (g2.1, is) ∈ gs) ∨ g2.1 = t := by
  intro gs
  induction gs with
  | nil =>
      intro g2 hg2
      simp only [addToGroups, List.mem_singleton] at hg2
      right
      rw [hg2]
  | cons g rest ih =>
      intro g2 hg2
      rcases g with ⟨k, is⟩
      simp only [addToGroups] at hg2
      by_cases hk : k.pyEq t = true
      · rw [if_pos hk] at hg2
        rcases List.mem_cons.mp hg2 with rfl | hg2x
        · exact Or.inl ⟨is, List.mem_cons_self _ _⟩
        · exact Or.inl ⟨g2.2, List.mem_cons_of_mem _ hg2x⟩
      · rw [if_neg hk] at hg2
        rcases List.mem_cons.mp hg2 with rfl | hg2x
        · exact Or.inl ⟨is, List.mem_cons_self _ _⟩
        · rcases ih g2 hg2x with ⟨is2, hmem⟩ | heq
          · exact Or.inl ⟨is2, List.mem_cons_of_mem _ hmem⟩
          · exact Or.inr heq

lemma addToGroups_distinct (t : Val) (i : ℕ) :
    ∀ gs, keysDistinct gs → keysDistinct (addToGroups t i gs) := by
  intro gs
  induction gs with
  | nil =>
      intro _
      simp only [addToGroups]
      exact List.pairwise_singleton _ _
  | cons g rest ih =>
      intro hd
      rcases g with ⟨k, is⟩
      rcases List.pairwise_cons.mp hd with ⟨hhead, htail⟩
      simp only [addToGroups]
      by_cases hk : k.pyEq t = true
      · rw [if_pos hk]
        exact List.pairwise_cons.mpr ⟨hhead, htail⟩
      · rw [if_neg hk]
        refine List.pairwise_cons.mpr ⟨?_, ih htail⟩
        intro g2 hg2
        rcases addToGroups_keys t i rest g2 hg2 with ⟨is2, hmem⟩ | heq
        · exact hhead (g2.1, is2) hmem
        · rw [heq]
          simpa using hk

lemma groupsOrigin_mono (P Q : List (ℕ × Val)) (gs : List (Val × List ℕ))
    (h : groupsOrigin P gs) : groupsOrigin (P ++ Q) gs := by
  intro g hg j hj
  obtain ⟨leg, hmem, h1, h2⟩ := h g hg j hj
  exact ⟨leg, List.mem_append_left _ hmem, h1, h2⟩

lemma addToGroups_origin (P : List (ℕ × Val)) (i : ℕ) (leg : Val)
    (htr : (teamsD leg).truthy = true) (hh : (teamsD leg).hashable = true) :
    ∀ gs, groupsOrigin P gs →
      groupsOrigin (P ++ [(i, leg)]) (addToGroups (teamsD leg) i gs) := by
  intro gs
  induction gs with
  | nil =>
      intro _ g hg j hj
      simp only [addToGroups, List.mem_singleton] at hg
      subst hg
      simp only [List.mem_singleton] at hj
      subst hj
      exact ⟨leg, List.mem_append_right _ (List.mem_singleton_self _),
        pyEq_refl_hashable _ hh, htr⟩
  | cons g0 rest ih =>
      intro ho g hg j hj
      rcases g0 with ⟨k, is⟩
      simp only [addToGroups] at hg
      by_cases hk : k.pyEq (teamsD leg) = true
      · rw [if_pos hk] at hg
        rcases List.mem_cons.mp hg with rfl | hgx
        · rcases List.mem_append.mp hj with hj1 | hj2
          · obtain ⟨leg2, hm, h1, h2⟩ := ho (k, is) (List.mem_cons_self _ _) j hj1
            exact ⟨leg2, List.mem_append_left _ hm, h1, h2⟩
          · simp only [List.mem_singleton] at hj2
            subst hj2
            exact ⟨leg, List.mem_append_right _ (List.mem_singleton_self _), hk, htr⟩
        · obtain ⟨leg2, hm, h1, h2⟩ := ho g (List.mem_cons_of_mem _ hgx) j hj
          exact ⟨leg2, List.mem_append_left _ hm, h1, h2⟩
      · rw [if_neg hk] at hg
        rcases List.mem_cons.mp hg with rfl | hgx
        · obtain ⟨leg2, hm, h1, h2⟩ := ho (k, is) (List.mem_cons_self _ _) j hj
          exact ⟨leg2, List.mem_append_left _ hm, h1, h2⟩
        · exact ih (fun g2 hg2 => ho g2 (List.mem_cons_of_mem _ hg2)) g hgx j hj

lemma addToGroups_content (s : String) (P : List (ℕ × Val)) (i : ℕ) (leg : Val)
    (hh : (teamsD leg).hashable = true) :
    ∀ gs, keysDistinct gs → sGroupContent s P gs →
      sGroupContent s (P ++ [(i, leg)]) (addToGroups (teamsD leg) i gs) := by
  intro gs
  induction gs with
  | nil =>
      intro _ hc
      have hempty : sIdx s P = [] := by
        by_contra hne
        obtain ⟨g2, hg2, _⟩ := hc.2 hne
        cases hg2
      by_cases ht : (teamsD leg).pyEq (.str s) = true
      · have hidx : sIdx s (P ++ [(i, leg)]) = [i] := by
          rw [sIdx_append, hempty, sIdx_cons_match s i leg [] ht]
          rfl
        constructor
        · intro g hg _
          simp only [addToGroups, List.mem_singleton] at hg
          subst hg
          rw [hidx]
        · intro _
          exact ⟨(teamsD leg, [i]), List.mem_singleton_self _, ht⟩
      · have hidx : sIdx s (P ++ [(i, leg)]) = [] := by
          rw [sIdx_append, hempty,
            sIdx_cons_nomatch s i leg [] (by simpa using ht)]
          rfl
        constructor
        · intro g hg hgs
          simp only [addToGroups, List.mem_singleton] at hg
          subst hg
          exact absurd hgs ht
        · intro hne
          rw [hidx] at hne
          exact absurd rfl hne
  | cons g0 rest ih =>
      intro hd hc
      rcases g0 with ⟨k, is⟩
      rcases List.pairwise_cons.mp hd with ⟨hhead, htail⟩
      simp only [addToGroups]
      by_cases hk : k.pyEq (teamsD leg) = true
      · rw [if_pos hk]
        by_cases hks : k.pyEq (.str s) = true
        · -- the head is the class-s group and absorbs i
          have hkval : k = .str s := (pyEq_str_iff k s).mp hks
          have htleg : teamsD leg = .str s := by
            subst hkval
            exact (pyEq_str_iff_left _ s).mp hk
          have hidx : sIdx s (P ++ [(i, leg)]) = sIdx s P ++ [i] := by
            rw [sIdx_append, sIdx_cons_match s i leg []
              (by rw [htleg]; exact pyEq_refl_hashable _ rfl)]
            rfl
          constructor
          · intro g hg hgs
            rcases List.mem_cons.mp hg with rfl | hgx
            · have his : is = sIdx s P := hc.1 (k, is) (List.mem_cons_self _ _) hks
              simp only [hidx]
              rw [his]
            · exfalso
              have hgval : g.1 = .str s := (pyEq_str_iff g.1 s).mp hgs
              have := hhead g hgx
              rw [hgval, hkval] at this
              rw [pyEq_refl_hashable (Val.str s) rfl] at this
              cases this
          · intro _
            exact ⟨(k, is ++ [i]), List.mem_cons_self _ _, hks⟩
        · -- head not in class s; the added leg is not in class s either
          have htns : (teamsD leg).pyEq (.str s) = false := by
            by_contra hcon
            have h1 : (teamsD leg).pyEq (.str s) = true := by
              cases hx : (teamsD leg).pyEq (.str s)
              · exact absurd hx hcon
              · rfl
            have h2 : teamsD leg = .str s := (pyEq_str_iff _ s).mp h1
            rw [h2] at hk
            exact hks ((pyEq_str_iff k s).mpr ((pyEq_str_iff k s).mp hk ▸ rfl) ▸ hk) |>.elim
          have hidx : sIdx s (P ++ [(i, leg)]) = sIdx s P := by
            rw [sIdx_append, sIdx_cons_nomatch s i leg [] htns]
            simp [sIdx]
          constructor
          · intro g hg hgs
            rcases List.mem_cons.mp hg with rfl | hgx
            · exact absurd hgs hks
            · rw [hidx]
              exact hc.1 g (List.mem_cons_of_mem _ hgx) hgs
          · intro hne
            rw [hidx] at hne
            obtain ⟨g, hg, hgs⟩ := hc.2 hne
            rcases List.mem_cons.mp hg with rfl | hgx
            · exact absurd hgs hks
            · exact ⟨g, List.mem_cons_of_mem _ hgx, hgs⟩
      · rw [if_neg hk]
        by_cases hks : k.pyEq (.str s) = true
        · -- head is the class-s group, left untouched; t is not class s
          have hkval : k = .str s := (pyEq_str_iff k s).mp hks
          have htns : (teamsD leg).pyEq (.str s) = false := by
            cases hx : (teamsD leg).pyEq (.str s)
            · rfl
            · exfalso
              have h2 : teamsD leg = .str s := (pyEq_str_iff _ s).mp hx
              rw [h2, hkval] at hk
              exact hk (pyEq_refl_hashable (Val.str s) rfl)
          have hidx : sIdx s (P ++ [(i, leg)]) = sIdx s P := by
            rw [sIdx_append, sIdx_cons_nomatch s i leg [] htns]
            simp [sIdx]
          constructor
          · intro g hg hgs
            rcases List.mem_cons.mp hg with rfl | hgx
            · rw [hidx]
              exact hc.1 (k, is) (List.mem_cons_self _ _) hks
            · exfalso
              have hgval : g.1 = .str s := (pyEq_str_iff g.1 s).mp hgs
              rcases addToGroups_keys (teamsD leg) i rest g hgx with ⟨is2, hmem⟩ | heq
              · have := hhead (g.1, is2) hmem
                rw [hgval, hkval] at this
                rw [pyEq_refl_hashable (Val.str s) rfl] at this
                cases this
              · rw [heq] at hgval
                rw [hgval] at htns
                rw [pyEq_refl_hashable (Val.str s) rfl] at htns
                cases htns
          · intro _
            exact ⟨(k, is), List.mem_cons_self _ _, hks⟩
        · -- head irrelevant, recurse into the tail
          have hcrest : sGroupContent s P rest := by
            constructor
            · intro g hg hgs
              exact hc.1 g (List.mem_cons_of_mem _ hg) hgs
            · intro hne
              obtain ⟨g, hg, hgs⟩ := hc.2 hne
              rcases List.mem_cons.mp hg with rfl | hgx
              · exact absurd hgs hks
              · exact ⟨g, hgx, hgs⟩
          have hrec := ih htail hcrest
          constructor
          · intro g hg hgs
            rcases List.mem_cons.mp hg with rfl | hgx
            · exact absurd hgs hks
            · exact hrec.1 g hgx hgs
          · intro hne
            obtain ⟨g, hg, hgs⟩ := hrec.2 hne
            exact ⟨g, List.mem_cons_of_mem _ hg, hgs⟩

lemma computeGroups_inv (s : String) (hs : s ≠ "") :
    ∀ (pairs P : List (ℕ × Val)) (acc groups : List (Val × List ℕ)),
      computeGroups pairs acc = .ok groups →
      keysDistinct acc ∧ groupsOrigin P acc ∧ sGroupContent s P acc →
      keysDistinct groups ∧ groupsOrigin (P ++ pairs) groups ∧
        sGroupContent s (P ++ pairs) groups := by
  intro pairs
  induction pairs with
  | nil =>
      intro P acc groups hok hinv
      simp only [computeGroups] at hok
      rw [← Except.ok.inj hok]
      simpa using hinv
  | cons p rest ih =>
      intro P acc groups hok hinv
      rcases p with ⟨i, leg⟩
      simp only [computeGroups] at hok
      split at hok
      next e heq => cases hok
      next t heq =>
          have htval : t = teamsD leg := by
            cases leg <;> simp_all [pyGetD, teamsD, Val.getD]
          subst htval
          by_cases htr : (teamsD leg).truthy = true
          · rw [if_pos htr] at hok
            by_cases hhash : (teamsD leg).hashable = true
            · rw [if_pos hhash] at hok
              have hstep := ih (P ++ [(i, leg)]) _ _ hok
                ⟨addToGroups_distinct _ i acc hinv.1,
                 addToGroups_origin P i leg htr hhash acc hinv.2.1,
                 addToGroups_content s P i leg hhash acc hinv.1 hinv.2.2⟩
              rwa [List.append_assoc, List.singleton_append] at hstep
            · rw [if_neg hhash] at hok
              cases hok
          · rw [if_neg htr] at hok
            have htns : (teamsD leg).pyEq (.str s) = false := by
              cases hx : (teamsD leg).pyEq (.str s)
              · rfl
              · exfalso
                have h2 : teamsD leg = .str s := (pyEq_str_iff _ s).mp hx
                rw [h2] at htr
                apply htr
                simp only [Val.truthy]
                simpa using hs
            have hcont : sGroupContent s (P ++ [(i, leg)]) acc := by
              have hidx : sIdx s (P ++ [(i, leg)]) = sIdx s P := by
                rw [sIdx_append, sIdx_cons_nomatch s i leg [] htns]
                simp [sIdx]
              constructor
              · intro g hg hgs
                rw [hidx]
                exact hinv.2.2.1 g hg hgs
              · intro hne
                rw [hidx] at hne
                exact hinv.2.2.2 hne
            have hstep := ih (P ++ [(i, leg)]) _ _ hok
              ⟨hinv.1, groupsOrigin_mono P [(i, leg)] acc hinv.2.1, hcont⟩
            rwa [List.append_assoc, List.singleton_append] at hstep

lemma mem_enumFrom (leg : Val) :
    ∀ (legs : List Val) (n j : ℕ), (j, leg) ∈ enumFrom n legs ↔
      n ≤ j ∧ legs.get? (j - n) = some leg := by
  intro legs
  induction legs with
  | nil => intro n j; simp [enumFrom]
  | cons x xs ih =>
      intro n j
      simp only [enumFrom, List.mem_cons, ih]
      constructor
      · rintro (heq | ⟨hle, hget⟩)
        · obtain ⟨h1, h2⟩ := Prod.mk.inj heq
          subst h1
          subst h2
          simp
        · refine ⟨by omega, ?_⟩
          have hj : j - n = (j - (n + 1)) + 1 := by omega
          rw [hj]
          simpa using hget
      · rintro ⟨hle, hget⟩
        by_cases hj : j = n
        · subst hj
          simp only [Nat.sub_self, List.get?] at hget
          exact Or.inl (by rw [Option.some.inj hget])
        · right
          refine ⟨by omega, ?_⟩
          have h2 : j - n = (j - (n + 1)) + 1 := by omega
          rw [h2] at hget
          simpa using hget

lemma mem_sIdx (s : String) (P : List (ℕ × Val)) (j : ℕ) :
    j ∈ sIdx s P ↔ ∃ leg, (j, leg) ∈ P ∧ (teamsD leg).pyEq (.str s) = true := by
  simp only [sIdx, List.mem_map, List.mem_filter]
  constructor
  · rintro ⟨⟨j2, leg⟩, ⟨hmem, hm⟩, hj⟩
    exact ⟨leg, by rwa [← hj], by simpa using hm⟩
  · rintro ⟨leg, hmem, hm⟩
    exact ⟨(j, leg), ⟨hmem, by simpa using hm⟩, rfl⟩

lemma mem_sGroupIndices (legs : List Val) (s : String) (j : ℕ) :
    j ∈ sGroupIndices legs s ↔
      ∃ leg, legs.get? j = some leg ∧ (teamsD leg).pyEq (.str s) = true := by
  rw [sGroupIndices, mem_sIdx]
  constructor
  · rintro ⟨leg, hmem, hm⟩
    rw [mem_enumFrom leg legs 0 j] at hmem
    exact ⟨leg, by simpa using hmem.2, hm⟩
  · rintro ⟨leg, hget, hm⟩
    exact ⟨leg, (mem_enumFrom leg legs 0 j).mpr ⟨Nat.zero_le _, by simpa using hget⟩, hm⟩

lemma lookup_setKey_self (k : String) (v : Val) :
    ∀ kv, Val.lookup (Val.setKey kv k v) k = some v := by
  intro kv
  induction kv with
  | nil => simp [Val.setKey, Val.lookup]
  | cons p rest ih =>
      rcases p with ⟨k2, w⟩
      simp only [Val.setKey]
      by_cases hk : k2 = k
      · rw [if_pos hk]
        simp [Val.lookup]
      · rw [if_neg hk]
        simp [Val.lookup, hk, ih]

lemma setOddsAt_length (legs : List Val) (i : ℕ) (v : Val) :
    (setOddsAt legs i v).length = legs.length := by
  simp [setOddsAt]

lemma setOddsAt_frame (legs : List Val) (i j : ℕ) (v : Val) (h : j ≠ i) :
    (setOddsAt legs i v).get? j = legs.get? j := by
  unfold setOddsAt
  exact List.get?_set_ne _ _ (Ne.symm h)

lemma setOddsAt_self (legs : List Val) (i : ℕ) (v : Val) (h : i < legs.length) :
    (setOddsAt legs i v).get? i = some (match legAt legs i with
      | .obj kv => Val.obj (Val.setKey kv "odds" v)
      | other => other) := by
  unfold setOddsAt
  exact List.get?_set_eq_of_lt _ h

lemma setOddsMany_length (v : Val) :
    ∀ (targets : List ℕ) (legs : List Val),
      (setOddsMany legs targets v).length = legs.length := by
  intro targets
  induction targets with
  | nil => intro legs; rfl
  | cons t rest ih =>
      intro legs
      show (setOddsMany (setOddsAt legs t v) rest v).length = legs.length
      rw [ih, setOddsAt_length]

lemma setOddsMany_frame (v : Val) :
    ∀ (targets : List ℕ) (legs : List Val) (j : ℕ), j ∉ targets →
      (setOddsMany legs targets v).get? j = legs.get? j := by
  intro targets
  induction targets with
  | nil => intro legs j _; rfl
  | cons t rest ih =>
      intro legs j hj
      show (setOddsMany (setOddsAt legs t v) rest v).get? j = legs.get? j
      rw [ih _ j (fun hc => hj (List.mem_cons_of_mem _ hc)),
        setOddsAt_frame legs t j v (fun hc => hj (hc ▸ List.mem_cons_self _ _))]

lemma setOddsAt_objness (legs : List Val) (i j : ℕ) (v : Val) (kv : List (String × Val))
    (h : legAt legs j = .obj kv) (hj : j < legs.length) :
    ∃ kv2, legAt (setOddsAt legs i v) j = .obj kv2 := by
  by_cases hji : j = i
  · subst hji
    refine ⟨Val.setKey kv "odds" v, ?_⟩
    rw [legAt, setOddsAt_self legs j v hj]
    simp only [Option.getD_some, h]
  · exact ⟨kv, by rw [legAt, setOddsAt_frame legs i j v hji]; exact h⟩

lemma setOddsMany_value (v : Val) :
    ∀ (targets : List ℕ) (legs : List Val) (j : ℕ), j ∈ targets →
      (∀ k ∈ targets, k < legs.length ∧ ∃ kv, legAt legs k = .obj kv) →
      ∃ kv2, legAt (setOddsMany legs targets v) j = .obj kv2 ∧
        Val.lookup kv2 "odds" = some v := by
  intro targets
  induction targets with
  | nil => intro legs j hj _; cases hj
  | cons t rest ih =>
      intro legs j hj hall
      show ∃ kv2, legAt (setOddsMany (setOddsAt legs t v) rest v) j = .obj kv2 ∧
        Val.lookup kv2 "odds" = some v
      by_cases hjr : j ∈ rest
      · apply ih (setOddsAt legs t v) j hjr
        intro k hk
        obtain ⟨hlt, kv, hkv⟩ := hall k (List.mem_cons_of_mem _ hk)
        refine ⟨by rw [setOddsAt_length]; exact hlt, ?_⟩
        exact setOddsAt_objness legs t k v kv hkv hlt
      · have hjt : j = t := by
          rcases List.mem_cons.mp hj with h | h
          · exact h
          · exact absurd h hjr
        subst hjt
        obtain ⟨hlt, kv, hkv⟩ := hall j (List.mem_cons_self _ _)
        refine ⟨Val.setKey kv "odds" v, ?_, lookup_setKey_self "odds" v kv⟩
        rw [legAt, setOddsMany_frame v rest _ j hjr, setOddsAt_self legs j v hlt]
        simp only [Option.getD_some, hkv]

lemma processGroup_frame (c : Val) (legs : List Val) (is : List ℕ) (legs2 : List Val)
    (hok : processGroup c legs is = .ok legs2) :
    legs2.length = legs.length ∧ ∀ j, j ∉ is → legs2.get? j = legs.get? j := by
  unfold processGroup at hok
  repeat' split at hok
  all_goals try cases hok
  all_goals try (refine ⟨rfl, fun j hj => rfl⟩)
  all_goals
    first
      | exact ⟨setOddsMany_length _ _ _,
          fun j hj => setOddsMany_frame _ _ _ j (fun hc => hj hc)⟩
      | exact ⟨setOddsMany_length _ _ _,
          fun j hj => setOddsMany_frame _ _ _ j
            (fun hc => hj (List.mem_of_mem_filter hc))⟩

lemma processGroups_append (c : Val) :
    ∀ (xs ys : List (Val × List ℕ)) (legs : List Val),
      processGroups c (xs ++ ys) legs =
        match processGroups c xs legs with
        | .error e => .error e
        | .ok legsA => processGroups c ys legsA := by
  intro xs
  induction xs with
  | nil => intro ys legs; rfl
  | cons g rest ih =>
      intro ys legs
      rcases g with ⟨k, is⟩
      simp only [List.cons_append, processGroups]
      cases hpg : processGroup c legs is with
      | error e => rfl
      | ok legsA => exact ih ys legsA

lemma processGroups_frame (c : Val) :
    ∀ (gs : List (Val × List ℕ)) (legs legs2 : List Val),
      processGroups c gs legs = .ok legs2 →
      legs2.length = legs.length ∧
        ∀ j, (∀ g ∈ gs, j ∉ g.2) → legs2.get? j = legs.get? j := by
  intro gs
  induction gs with
  | nil =>
      intro legs legs2 hok
      rw [← Except.ok.inj hok]
      exact ⟨rfl, fun j _ => rfl⟩
  | cons g rest ih =>
      intro legs legs2 hok
      rcases g with ⟨k, is⟩
      simp only [processGroups] at hok
      cases hpg : processGroup c legs is with
      | error e => rw [hpg] at hok; cases hok
      | ok legsA =>
          rw [hpg] at hok
          obtain ⟨hlen, hframe⟩ := processGroup_frame c legs is legsA hpg
          obtain ⟨hlen2, hframe2⟩ := ih legsA legs2 hok
          refine ⟨by rw [hlen2, hlen], ?_⟩
          intro j hj
          rw [hframe2 j (fun g2 hg2 => hj g2 (List.mem_cons_of_mem _ hg2)),
            hframe j (hj (k, is) (List.mem_cons_self _ _))]

lemma reverse_calculate_ok (v : ℚ) (n : ℕ) (hv : v ≠ 0) (hn : 2 ≤ n) :
    ∃ r, reverse_calculate_equal_odds v n = .ok r := by
  have hd : ∃ d, american_to_decimal_odds v = .ok d ∧ 1 < d := by
    rcases lt_or_gt_of_ne hv with hneg | hpos
    · refine ⟨100 / -v + 1, atd_neg v hneg, ?_⟩
      have h2 : (0 : ℚ) < -v := by linarith
      have : (0 : ℚ) < 100 / -v := div_pos (by norm_num) h2
      linarith
    · refine ⟨v / 100 + 1, atd_pos v hpos, ?_⟩
      have : (0 : ℚ) < v / 100 := div_pos hpos (by norm_num)
      linarith
  obtain ⟨d, hdd, hd1⟩ := hd
  have hn0 : (0 : ℚ) < (n : ℚ) := by
    have : (0 : ℕ) < n := by omega
    exact_mod_cast this
  have hroot : 1 < nthRootModel d n := by
    unfold nthRootModel
    have : (0 : ℚ) < (d - 1) / (n : ℚ) := div_pos (by linarith) hn0
    linarith
  have hrev : ∃ a, decimal_to_american_odds (nthRootModel d n) = .ok a := by
    by_cases h2 : (2 : ℚ) ≤ nthRootModel d n
    · exact ⟨_, dta_hi _ h2⟩
    · exact ⟨_, dta_mid _ hroot (not_le.mp h2)⟩
  obtain ⟨a, ha⟩ := hrev
  unfold reverse_calculate_equal_odds
  rw [if_neg hv, if_neg (by omega), hdd]
  show ∃ r, (match decimal_to_american_odds (nthRootModel d n) with
    | Except.error e => Except.error e
    | Except.ok individual_american => Except.ok (round2 individual_american)) = .ok r
  rw [ha]
  exact ⟨_, rfl⟩

lemma case1Scan_null (legs : List Val) :
    ∀ G : List ℕ, (∀ j ∈ G, ∃ kv, legAt legs j = .obj kv ∧
        Val.lookup kv "combinedOdds" = none ∧
        Val.lookup kv "sameGameParlayOdds" = none) →
      case1Scan legs G = .null := by
  intro G
  induction G with
  | nil => intro _; rfl
  | cons i rest ih =>
      intro h
      obtain ⟨kv, hkv, hc, hsg⟩ := h i (List.mem_cons_self _ _)
      have h1 : Val.getD (legAt legs i) "combinedOdds" .null = .null := by
        rw [hkv]
        simp [Val.getD, hc]
      have h2 : Val.getD (legAt legs i) "sameGameParlayOdds" .null = .null := by
        rw [hkv]
        simp [Val.getD, hsg]
      simp only [case1Scan, h1, h2, Val.pyOr, Val.truthy, Val.isNull]
      exact ih (fun j hj => h j (List.mem_cons_of_mem _ hj))

lemma processGroup_allEqual (c : Val) (legs : List Val) (G : List ℕ) (v : ℚ) (r : ℚ)
    (hlen : 2 ≤ G.length)
    (hobj : ∀ j ∈ G, ∃ kv, legAt legs j = .obj kv ∧
      Val.lookup kv "odds" = some (.num v) ∧
      Val.lookup kv "combinedOdds" = none ∧ Val.lookup kv "sameGameParlayOdds" = none)
    (hv : v ≠ 0)
    (hr : reverse_calculate_equal_odds v G.length = .ok r) :
    processGroup c legs G = .ok (setOddsMany legs G (.num r)) := by
  have hodds : ∀ j ∈ G, oddsD (legAt legs j) = .num v := by
    intro j hj
    obtain ⟨kv, hkv, ho, _, _⟩ := hobj j hj
    rw [hkv]
    simp [oddsD, Val.getD, ho]
  have hnm : ∀ j ∈ G, legNonMissing (legAt legs j) = true := by
    intro j hj
    rw [legNonMissing, hodds j hj]
    simp [Val.isNull, Val.pyEq, Val.toNum?, hv]
  have hfilter : G.filter (fun i => legNonMissing (legAt legs i)) = G :=
    List.filter_eq_self.mpr hnm
  have hmiss : groupMissing legs G = [] := by
    rw [groupMissing, List.filter_eq_nil_iff]
    intro j hj
    simp [hnm j hj]
  have hvals : groupOddsVals legs G = G.map (fun _ => Val.num v) := by
    rw [groupOddsVals, hfilter]
    exact List.map_congr_left hodds
  have hc1 : case1Scan legs G = .null :=
    case1Scan_null legs G (fun j hj =>
      (hobj j hj).elim (fun kv hkv => ⟨kv, hkv.1, hkv.2.2.1, hkv.2.2.2⟩))
  have hset : setAllEqual (G.map (fun _ => Val.num v)) = .ok true := by
    unfold setAllEqual
    rw [if_pos (by simp [Val.hashable])]
    cases G with
    | nil => rfl
    | cons i rest => simp [Val.pyEq, Val.toNum?]
  have hhead : (G.map (fun _ => Val.num v)).headD .null = .num v := by
    cases G with
    | nil => exact absurd hlen (by simp)
    | cons i rest => rfl
  have hres : resolveCombined c legs G = .ok (.num v, true) := by
    unfold resolveCombined
    rw [hc1, hvals, hset, hhead]
    have hcond : ((Val.null).isNull &&
        ((G.map (fun _ => Val.num v)).length == G.length)) = true := by
      simp [Val.isNull]
    rw [if_pos hcond]
    unfold case3Apply
    rw [if_neg (by simp [Val.isNull])]
  unfold processGroup
  rw [if_neg (by omega)]
  have hguard : (!(Val.num v).isNull && !(Val.num v).pyEq (.num 0)) = true := by
    simp [Val.isNull, Val.pyEq, Val.toNum?, hv]
  have hrev : reverse_calculate_equal_odds_val (.num v) G.length = .ok r := by
    unfold reverse_calculate_equal_odds_val
    simp only [Val.toNum?]
    exact hr
  simp only [hres, hguard, hrev, if_true]

/-- The `Case 2` trigger: every leg of the group carries the same (under
Python `==`) non-`None`, nonzero odds value. -/
def allSameNonzeroOdds (legs : List Val) (G : List ℕ) : Prop :=
  (∀ j ∈ G, legNonMissing (legAt legs j) = true) ∧
  (∀ j ∈ G, ∀ k ∈ G, (oddsD (legAt legs j)).pyEq (oddsD (legAt legs k)) = true)

lemma processGroup_noSignal (c : Val) (legs : List Val) (G : List ℕ)
    (hobj : ∀ j ∈ G, ∃ kv, legAt legs j = .obj kv ∧
      Val.lookup kv "combinedOdds" = none ∧ Val.lookup kv "sameGameParlayOdds" = none)
    (hsome : ∃ j ∈ G, legNonMissing (legAt legs j) = true)
    (hnecho : ¬ allSameNonzeroOdds legs G) :
    ∀ legs2, processGroup c legs G = .ok legs2 → legs2 = legs := by
  intro legs2 hok
  unfold processGroup at hok
  by_cases hlen : G.length < 2
  · rw [if_pos hlen] at hok
    exact (Except.ok.inj hok).symm
  · rw [if_neg hlen] at hok
    have hc1 : case1Scan legs G = .null := case1Scan_null legs G hobj
    have hmissne : ((groupMissing legs G).length == G.length) = false := by
      obtain ⟨j, hjG, hjnm⟩ := hsome
      have hlt : (groupMissing legs G).length < G.length := by
        rw [groupMissing]
        exact List.length_filter_lt_length_iff_exists.mpr
          ⟨j, hjG, by simp [hjnm]⟩
      simp [Nat.ne_of_lt hlt]
    have hc3 : case3Apply c legs G .null false = (.null, false) := by
      unfold case3Apply
      rw [if_neg (by simp [hmissne])]
    by_cases hall : ∀ j ∈ G, legNonMissing (legAt legs j) = true
    · -- every leg has odds; the equal-odds echo must not fire
      have hfilter : G.filter (fun i => legNonMissing (legAt legs i)) = G :=
        List.filter_eq_self.mpr hall
      have hlenvals : ((groupOddsVals legs G).length == G.length) = true := by
        simp [groupOddsVals, hfilter]
      unfold resolveCombined at hok
      rw [hc1, hlenvals] at hok
      rw [if_pos (by simp [Val.isNull])] at hok
      cases hsae : setAllEqual (groupOddsVals legs G) with
      | error e => rw [hsae] at hok; cases hok
      | ok b =>
          cases b with
          | true =>
              exfalso
              apply hnecho
              refine ⟨hall, ?_⟩
              -- from `set` having one element: all values equal the head
              have hvals : groupOddsVals legs G = G.map (fun i => oddsD (legAt legs i)) := by
                rw [groupOddsVals, hfilter]
              obtain ⟨i0, rest, hG⟩ : ∃ i0 rest, G = i0 :: rest := by
                cases G with
                | nil => exact absurd (by norm_num : ([] : List ℕ).length < 2) hlen
                | cons a b => exact ⟨a, b, rfl⟩
              unfold setAllEqual at hsae
              rw [hvals, hG, List.map_cons] at hsae
              by_cases hhash : ((oddsD (legAt legs i0) ::
                  rest.map (fun i => oddsD (legAt legs i))).all Val.hashable) = true
              · rw [if_pos hhash] at hsae
                have h3 : (rest.map (fun i => oddsD (legAt legs i))).all
                    ((oddsD (legAt legs i0)).pyEq) = true := Except.ok.inj hsae
                have hx0 : (oddsD (legAt legs i0)).hashable = true := by
                  simp only [List.all_cons, Bool.and_eq_true] at hhash
                  exact hhash.1
                have hhd : ∀ j ∈ G, (oddsD (legAt legs i0)).pyEq
                    (oddsD (legAt legs j)) = true := by
                  intro j hj
                  rw [hG] at hj
                  rcases List.mem_cons.mp hj with rfl | hjr
                  · exact pyEq_refl_hashable _ hx0
                  · exact (List.all_eq_true.mp h3) _ (List.mem_map_of_mem _ hjr)
                intro j hj k hk
                exact pyEq_trans_hashable _ _ _ hx0 (hhd j hj) (hhd k hk)
              · rw [if_neg hhash] at hsae
                cases hsae
          | false =>
              rw [hsae, hc3] at hok
              exact (Except.ok.inj hok).symm
    · -- some leg is missing odds: the lengths differ, no echo, no hint
      have hlt : (G.filter (fun i => legNonMissing (legAt legs i))).length < G.length := by
        push_neg at hall
        obtain ⟨j, hjG, hjnm⟩ := hall
        exact List.length_filter_lt_length_iff_exists.mpr ⟨j, hjG, by simp [hjnm]⟩
      have hlenvals : ((groupOddsVals legs G).length == G.length) = false := by
        simp [groupOddsVals, Nat.ne_of_lt hlt]
      unfold resolveCombined at hok
      rw [hc1, hlenvals] at hok
      rw [if_neg (by simp)] at hok
      rw [hc3] at hok
      exact (Except.ok.inj hok).symm

/-- Decomposition of a successful resolver run around the class-`s` group:
there are intermediate leg lists agreeing with the input (resp. output) on
the group's indices, linked by that group's own processing step. -/
lemma sGroup_step (legs : List Val) (c : Val) (s : String) (hs : s ≠ "")
    (hne : sGroupIndices legs s ≠ [])
    (legs2 : List Val)
    (hok : handle_same_game_parlay_odds legs c = .ok legs2) :
    ∃ legsA legsB,
      legsA.length = legs.length ∧
      (∀ j ∈ sGroupIndices legs s, legsA.get? j = legs.get? j) ∧
      processGroup c legsA (sGroupIndices legs s) = .ok legsB ∧
      (∀ j ∈ sGroupIndices legs s, legs2.get? j = legsB.get? j) := by
  unfold handle_same_game_parlay_odds at hok
  cases hcg : computeGroups (enumFrom 0 legs) [] with
  | error e => rw [hcg] at hok; cases hok
  | ok groups =>
      rw [hcg] at hok
      replace hok : processGroups c groups legs = .ok legs2 := hok
      have hinv := computeGroups_inv s hs (enumFrom 0 legs) [] [] groups hcg
        ⟨List.Pairwise.nil, fun g hg => absurd hg (List.not_mem_nil g),
         fun g hg => absurd hg (List.not_mem_nil g), fun h => absurd rfl h⟩
      simp only [List.nil_append] at hinv
      obtain ⟨gS, hgSmem, hgSkey⟩ := hinv.2.2.2 hne
      rcases gS with ⟨k, G0⟩
      have hGeq : G0 = sGroupIndices legs s := hinv.2.2.1 (k, G0) hgSmem hgSkey
      have hkey : k = .str s := (pyEq_str_iff k s).mp hgSkey
      have hnotin : ∀ g ∈ groups, g.1.pyEq (.str s) = false →
          ∀ j ∈ sGroupIndices legs s, j ∉ g.2 := by
        intro g hg hgke j hjG hjg
        obtain ⟨leg, hmem, hpe, htr⟩ := hinv.2.1 g hg j hjg
        obtain ⟨leg2, hget2, hpe2⟩ := (mem_sGroupIndices legs s j).mp hjG
        have hget1 : legs.get? j = some leg := by
          have h2 := (mem_enumFrom leg legs 0 j).mp hmem
          simpa using h2.2
        have hleg : leg = leg2 := by
          rw [hget1] at hget2
          exact Option.some.inj hget2
        subst hleg
        have hts : teamsD leg = .str s := (pyEq_str_iff _ s).mp hpe2
        rw [hts] at hpe
        rw [hpe] at hgke
        cases hgke
      obtain ⟨pre, post, hdecomp⟩ := List.append_of_mem hgSmem
      have hkd := hinv.1
      rw [hdecomp] at hkd
      obtain ⟨hkdpre, hkdrest, hcross⟩ := List.pairwise_append.mp hkd
      obtain ⟨hgSpost, hkdpost⟩ := List.pairwise_cons.mp hkdrest
      have hprekey : ∀ g ∈ pre, g.1.pyEq (.str s) = false := by
        intro g hg
        have h := hcross g hg (k, G0) (List.mem_cons_self _ _)
        rwa [hkey] at h
      have hpostkey : ∀ g ∈ post, g.1.pyEq (.str s) = false := by
        intro g hg
        have h := hgSpost g hg
        rw [hkey] at h
        rwa [pyEq_symm] at h
      rw [hdecomp, processGroups_append] at hok
      cases hpre2 : processGroups c pre legs with
      | error e => rw [hpre2] at hok; cases hok
      | ok legsA =>
          rw [hpre2] at hok
          replace hok : processGroups c ((k, G0) :: post) legsA = .ok legs2 := hok
          simp only [processGroups] at hok
          cases hstep : processGroup c legsA G0 with
          | error e => rw [hstep] at hok; cases hok
          | ok legsB =>
              rw [hstep] at hok
              replace hok : processGroups c post legsB = .ok legs2 := hok
              obtain ⟨hlenA, hframeA⟩ := processGroups_frame c pre legs legsA hpre2
              obtain ⟨hlen2, hframe2⟩ := processGroups_frame c post legsB legs2 hok
              refine ⟨legsA, legsB, hlenA, ?_, by rwa [hGeq] at hstep, ?_⟩
              · intro j hjG
                apply hframeA
                intro g hg
                exact hnotin g (by rw [hdecomp]; exact List.mem_append_left _ hg)
                  (hprekey g hg) j hjG
              · intro j hjG
                apply hframe2
                intro g hg
                exact hnotin g
                  (by
                    rw [hdecomp]
                    exact List.mem_append_right _ (List.mem_cons_of_mem _ hg))
                  (hpostkey g hg) j hjG

lemma roundHalfEven_intCast (n : ℤ) : roundHalfEven (n : ℚ) = n := by
  unfold roundHalfEven
  norm_num [Int.floor_intCast]

lemma round2_of_mul_hundred (q : ℚ) (n : ℤ) (h : q * 100 = (n : ℚ)) :
    round2 q = (n : ℚ) / 100 := by
  unfold round2
  rw [h, roundHalfEven_intCast]

lemma reverse_neg150 : reverse_calculate_equal_odds (-150) 2 = .ok (-300) := by
  unfold reverse_calculate_equal_odds
  rw [if_neg (by norm_num), if_neg (by norm_num), atd_neg (-150) (by norm_num)]
  show (match decimal_to_american_odds (nthRootModel (100 / -(-150 : ℚ) + 1) 2) with
    | Except.error e => Except.error e
    | Except.ok individual_american => Except.ok (round2 individual_american)) = .ok (-300)
  have h1 : nthRootModel (100 / -(-150 : ℚ) + 1) 2 = 4 / 3 := by
    unfold nthRootModel
    norm_num
  rw [h1, dta_mid (4 / 3) (by norm_num) (by norm_num)]
  have h2 : (-100 : ℚ) / (4 / 3 - 1) = -300 := by norm_num
  rw [h2]
  show Except.ok (round2 (-300)) = Except.ok (-300)
  have h3 : round2 (-300) = -300 := by
    rw [round2_of_mul_hundred (-300) (-30000) (by norm_num)]
    norm_num
  rw [h3]

/-- C2 fails as stated: two legs with *empty* (hence exactly equal) teams
strings both carrying the identical nonzero odds `-150` and no
combined-odds fields are not grouped at all (the resolver only groups
truthy teams values), so their odds are left at `-150` instead of being
replaced with `reverse_calculate_equal_odds(-150, 2)`. -/
theorem C2_equal_odds_counterexample :
    handle_same_game_parlay_odds
        [Val.obj [("teams", Val.str ""), ("odds", Val.num (-150))],
         Val.obj [("teams", Val.str ""), ("odds", Val.num (-150))]] .null
      = .ok [Val.obj [("teams", Val.str ""), ("odds", Val.num (-150))],
             Val.obj [("teams", Val.str ""), ("odds", Val.num (-150))]] ∧
    reverse_calculate_equal_odds (-150) 2 = .ok (-300) ∧
    (Val.num (-300) : Val) ≠ Val.num (-150) := by
  refine ⟨rfl, reverse_neg150, fun h => ?_⟩
  have := Val.num.inj h
  norm_num at this

/-- C2 (amended): if a parlay's legs contain a group of `n ≥ 2` legs whose
teams strings are exactly equal and *nonempty*, every leg in the group
carries the same nonzero numeric odds `v`, and no leg in the group carries
a `combinedOdds` or `sameGameParlayOdds` field, then the resolver treats
`v` as the group's combined odds and replaces the odds of every leg in the
group (not only legs with missing odds) with
`reverse_calculate_equal_odds(v, n)`.  (For empty teams strings the group
is never formed, see `C2_equal_odds_counterexample`.) -/
theorem C2_equal_odds_echo (legs : List Val) (c : Val) (s : String) (hs : s ≠ "")
    (v : ℚ) (hv : v ≠ 0)
    (hlen : 2 ≤ (sGroupIndices legs s).length)
    (hobj : ∀ j ∈ sGroupIndices legs s, ∃ kv, legAt legs j = .obj kv ∧
      Val.lookup kv "odds" = some (.num v) ∧
      Val.lookup kv "combinedOdds" = none ∧ Val.lookup kv "sameGameParlayOdds" = none)
    (legs2 : List Val)
    (hok : handle_same_game_parlay_odds legs c = .ok legs2) :
    ∃ r, reverse_calculate_equal_odds v (sGroupIndices legs s).length = .ok r ∧
      ∀ j ∈ sGroupIndices legs s, oddsD (legAt legs2 j) = .num r := by
  have hne : sGroupIndices legs s ≠ [] := by
    intro h
    rw [h] at hlen
    norm_num at hlen
  obtain ⟨legsA, legsB, hlenA, hfA, hstep, hf2⟩ := sGroup_step legs c s hs hne legs2 hok
  obtain ⟨r, hr⟩ := reverse_calculate_ok v (sGroupIndices legs s).length hv hlen
  have hobjA : ∀ j ∈ sGroupIndices legs s, ∃ kv, legAt legsA j = .obj kv ∧
      Val.lookup kv "odds" = some (.num v) ∧
      Val.lookup kv "combinedOdds" = none ∧
      Val.lookup kv "sameGameParlayOdds" = none := by
    intro j hj
    rw [legAt, hfA j hj]
    exact hobj j hj
  have hstep2 := processGroup_allEqual c legsA (sGroupIndices legs s) v r hlen hobjA hv hr
  rw [hstep2] at hstep
  have hlegsB : legsB = setOddsMany legsA (sGroupIndices legs s) (.num r) :=
    (Except.ok.inj hstep).symm
  refine ⟨r, hr, ?_⟩
  intro j hj
  have hbounds : ∀ k ∈ sGroupIndices legs s, k < legsA.length ∧
      ∃ kv, legAt legsA k = .obj kv := by
    intro k hk
    obtain ⟨leg, hget, _⟩ := (mem_sGroupIndices legs s k).mp hk
    refine ⟨?_, ?_⟩
    · rw [hlenA]
      rw [List.get?_eq_some] at hget
      exact hget.1
    · obtain ⟨kv, hkv, _⟩ := hobjA k hk
      exact ⟨kv, hkv⟩
  obtain ⟨kv2, hkv2, hlook⟩ :=
    setOddsMany_value (.num r) (sGroupIndices legs s) legsA j hj hbounds
  rw [legAt, hf2 j hj, hlegsB]
  rw [legAt] at hkv2
  rw [hkv2]
  simp [oddsD, Val.getD, hlook]

/-- A two-leg same-game parlay (teams `"A"`) with the combined price
`-150` echoed onto both legs. -/
def cexEchoLegs : List Val :=
  [Val.obj [("teams", Val.str "A"), ("odds", Val.num (-150))],
   Val.obj [("teams", Val.str "A"), ("odds", Val.num (-150))]]

/-- `cexEchoLegs` after resolution: both legs rewritten to
`reverse_calculate_equal_odds(-150, 2) = -300` (under the rational model
of the float n-th root). -/
def cexEchoResolved : List Val :=
  [Val.obj [("teams", Val.str "A"), ("odds", Val.num (-300))],
   Val.obj [("teams", Val.str "A"), ("odds", Val.num (-300))]]

lemma cexEcho_hobj : ∀ j ∈ sGroupIndices cexEchoLegs "A",
    ∃ kv, legAt cexEchoLegs j = .obj kv ∧
      Val.lookup kv "odds" = some (.num (-150)) ∧
      Val.lookup kv "combinedOdds" = none ∧
      Val.lookup kv "sameGameParlayOdds" = none := by
  intro j hj
  have hj2 : j ∈ ([0, 1] : List ℕ) := hj
  rcases List.mem_cons.mp hj2 with rfl | hj3
  · exact ⟨[("teams", Val.str "A"), ("odds", Val.num (-150))], rfl, rfl, rfl, rfl⟩
  · rcases List.mem_cons.mp hj3 with rfl | hj4
    · exact ⟨[("teams", Val.str "A"), ("odds", Val.num (-150))], rfl, rfl, rfl, rfl⟩
    · cases hj4

lemma cexEcho_eval :
    handle_same_game_parlay_odds cexEchoLegs .null = .ok cexEchoResolved := by
  have hpg := processGroup_allEqual .null cexEchoLegs [0, 1] (-150) (-300)
    (by norm_num) (fun j hj => cexEcho_hobj j hj) (by norm_num) reverse_neg150
  show (match processGroup .null cexEchoLegs [0, 1] with
    | Except.error e => Except.error e
    | Except.ok legsB => processGroups .null [] legsB) = .ok cexEchoResolved
  rw [hpg]
  rfl

/-- Concrete instantiation of `C2_equal_odds_echo` at `cexEchoLegs`. -/
theorem C2_equal_odds_echo_witness :
    ∃ r, reverse_calculate_equal_odds (-150)
        (sGroupIndices cexEchoLegs "A").length = .ok r ∧
      ∀ j ∈ sGroupIndices cexEchoLegs "A",
        oddsD (legAt cexEchoResolved j) = .num r :=
  C2_equal_odds_echo cexEchoLegs .null "A" (by decide) (-150) (by norm_num)
    (by decide) cexEcho_hobj cexEchoResolved cexEcho_eval

/-- C7: the parlay-level combined-odds hint is applied to a same-game leg
group only when every leg in the group is missing odds.  Whenever at least
one leg of the group already carries a nonzero odds value and the hint is
the only combined-odds signal (no leg carries a
`combinedOdds`/`sameGameParlayOdds` field and the group does not carry one
identical nonzero odds value on every leg — the latter would itself be a
combined-odds signal, the equal-odds echo), legs that already have odds
keep their odds unchanged. -/
theorem C7_hint_preserves_existing_odds (legs : List Val) (c : Val) (s : String)
    (hs : s ≠ "")
    (hlen : 2 ≤ (sGroupIndices legs s).length)
    (hobj : ∀ j ∈ sGroupIndices legs s, ∃ kv, legAt legs j = .obj kv ∧
      Val.lookup kv "combinedOdds" = none ∧
      Val.lookup kv "sameGameParlayOdds" = none)
    (hsome : ∃ j ∈ sGroupIndices legs s, legNonMissing (legAt legs j) = true)
    (hnecho : ¬ allSameNonzeroOdds legs (sGroupIndices legs s))
    (legs2 : List Val)
    (hok : handle_same_game_parlay_odds legs c = .ok legs2) :
    ∀ j ∈ sGroupIndices legs s, legNonMissing (legAt legs j) = true →
      oddsD (legAt legs2 j) = oddsD (legAt legs j) := by
  have hne : sGroupIndices legs s ≠ [] := by
    intro h
    rw [h] at hlen
    norm_num at hlen
  obtain ⟨legsA, legsB, hlenA, hfA, hstep, hf2⟩ := sGroup_step legs c s hs hne legs2 hok
  have hAeq : ∀ j ∈ sGroupIndices legs s, legAt legsA j = legAt legs j := by
    intro j hj
    rw [legAt, legAt, hfA j hj]
  have hobjA : ∀ j ∈ sGroupIndices legs s, ∃ kv, legAt legsA j = .obj kv ∧
      Val.lookup kv "combinedOdds" = none ∧
      Val.lookup kv "sameGameParlayOdds" = none := by
    intro j hj
    rw [hAeq j hj]
    exact hobj j hj
  have hsomeA : ∃ j ∈ sGroupIndices legs s, legNonMissing (legAt legsA j) = true := by
    obtain ⟨j, hj, hnm⟩ := hsome
    exact ⟨j, hj, by rw [hAeq j hj]; exact hnm⟩
  have hnechoA : ¬ allSameNonzeroOdds legsA (sGroupIndices legs s) := by
    intro hcon
    apply hnecho
    constructor
    · intro j hj
      have h2 := hcon.1 j hj
      rwa [hAeq j hj] at h2
    · intro j hj k hk
      have h2 := hcon.2 j hj k hk
      rwa [hAeq j hj, hAeq k hk] at h2
  have hB := processGroup_noSignal c legsA (sGroupIndices legs s) hobjA hsomeA hnechoA
    legsB hstep
  intro j hj _
  rw [legAt, hf2 j hj, hB]
  show oddsD (legAt legsA j) = oddsD (legAt legs j)
  rw [hAeq j hj]

/-! ## Model-Output Normalizer — `shared/betslip_parser.py`

`_normalize_single_bet`, `_normalize_parlay_bet`, `_normalize_bet` and
`parse_bets_from_model_output` (the copy in `shared/`, which normalizes
with `validate=False` inside the parse loop).  `json.loads` is stdlib and
external: the parser takes its result as `Option Val`, `none` standing
for `json.JSONDecodeError`.  `str(uuid.uuid4())` is modelled by a fixed
placeholder string (no claim inspects generated ids). -/

/-- `s.lower()` (character-wise, as for the ASCII type tags involved). -/
def strLower (s : String) : String := String.mk (s.data.map Char.toLower)

/-- `d[key] = w` on a bet dict. -/
def objSetKey (v : Val) (key : String) (w : Val) : Val :=
  match v with
  | .obj kv => .obj (Val.setKey kv key w)
  | other => other

def Val.isObj : Val → Bool
  | .obj _ => true
  | _ => false

/-- `_normalize_single_bet(raw, validate)`: copy the recognized fields,
default `status` to `"pending"`, carry `attributedTo` only if truthy;
with `validate=True` run the schema validator and return its error. -/
def _normalize_single_bet (raw : Val) (validate : Bool) :
    Except PyErr (Val × Option String) :=
  match raw with
  | .obj kv =>
      match Val.obj ([("type", Val.str "single"),
          ("amount", (Val.lookup kv "amount").getD .null),
          ("date", (Val.lookup kv "date").getD .null),
          ("sport", (Val.lookup kv "sport").getD .null),
          ("teams", (Val.lookup kv "teams").getD .null),
          ("betType", (Val.lookup kv "betType").getD .null),
          ("selection", (Val.lookup kv "selection").getD .null),
          ("odds", (Val.lookup kv "odds").getD .null),
          ("status", (Val.lookup kv "status").getD (.str "pending"))] ++
          (if ((Val.lookup kv "attributedTo").getD .null).truthy then
            [("attributedTo", (Val.lookup kv "attributedTo").getD .null)]
          else [])) with
      | bet =>
          if validate then
            match validate_single_bet bet with
            | .error e => .error e
            | .ok (true, _) => .ok (bet, none)
            | .ok (false, e) => .ok (bet, e)
          else .ok (bet, none)
  | _ => .error (.attributeError "object has no attribute get")

/-- One leg of `_normalize_parlay_bet`'s leg-copy loop (`leg.get` raises
`AttributeError` on non-dict legs). -/
def normalizeLeg (leg : Val) : Except PyErr Val :=
  match leg with
  | .obj lk =>
      .ok (.obj ([("id", Val.pyOr ((Val.lookup lk "id").getD .null) (.str "uuid4")),
          ("sport", (Val.lookup lk "sport").getD .null),
          ("teams", (Val.lookup lk "teams").getD .null),
          ("betType", (Val.lookup lk "betType").getD .null),
          ("selection", (Val.lookup lk "selection").getD .null),
          ("odds", (Val.lookup lk "odds").getD .null)] ++
          (if ((Val.lookup lk "attributedTo").getD .null).truthy then
            [("attributedTo", (Val.lookup lk "attributedTo").getD .null)]
          else [])))
  | _ => .error (.attributeError "object has no attribute get")

def mapVals (f : Val → Except PyErr Val) : List Val → Except PyErr (List Val)
  | [] => .ok []
  | x :: xs =>
      match f x with
      | .error e => .error e
      | .ok y =>
          match mapVals f xs with
          | .error e => .error e
          | .ok ys => .ok (y :: ys)

/-- The parlay bet dict assembled by `_normalize_parlay_bet`. -/
def parlayBetShape (kv : List (String × Val)) (legs : List Val) : Val :=
  Val.obj ([("type", Val.str "parlay"),
      ("amount", (Val.lookup kv "amount").getD .null),
      ("date", (Val.lookup kv "date").getD .null),
      ("legs", Val.arr legs),
      ("status", (Val.lookup kv "status").getD (.str "pending"))] ++
      (if ((Val.lookup kv "attributedTo").getD .null).truthy then
        [("attributedTo", (Val.lookup kv "attributedTo").getD .null)]
      else []))

/-- `_normalize_parlay_bet(raw, validate)`. -/
def _normalize_parlay_bet (raw : Val) (validate : Bool) :
    Except PyErr (Val × Option String) :=
  match raw with
  | .obj kv =>
      match Val.pyOr ((Val.lookup kv "legs").getD .null) (.arr []) with
      | .arr legs_in =>
          match mapVals normalizeLeg legs_in with
          | .error e => .error e
          | .ok legs0 =>
              match handle_same_game_parlay_odds legs0
                  (Val.pyOr ((Val.lookup kv "combinedOdds").getD .null)
                    (Val.pyOr ((Val.lookup kv "sameGameParlayOdds").getD .null)
                      ((Val.lookup kv "parlayOdds").getD .null))) with
              | .error e => .error e
              | .ok legs =>
                  if validate then
                    match validate_parlay (parlayBetShape kv legs) with
                    | .error e => .error e
                    | .ok (true, _) => .ok (parlayBetShape kv legs, none)
                    | .ok (false, e) => .ok (parlayBetShape kv legs, e)
                  else .ok (parlayBetShape kv legs, none)
      | _ =>
          if validate then .error (.betSlipParserError "Parlay 'legs' must be a list")
          else
            .ok (parlayBetShape kv [], some "Parlay 'legs' must be a list")
  | _ => .error (.attributeError "object has no attribute get")

/-- `{"type": bet_type or "unknown", **raw}`: dict-literal merge, later
keys (the raw entries) overriding the `type` slot. -/
def partialTypeBet (bt : String) (kv : List (String × Val)) : Val :=
  .obj (kv.foldl (fun acc p => Val.setKey acc p.1 p.2)
    [("type", if bt = "" then Val.str "unknown" else Val.str bt)])

/-- `_normalize_bet(raw, validate)`: dispatch on
`(raw.get("type") or "").lower()`; `.get` raises `AttributeError` on a
non-dict entry, `.lower()` raises `AttributeError` on a truthy non-string
type value. -/
def _normalize_bet (raw : Val) (validate : Bool) : Except PyErr (Val × Option String) :=
  match raw with
  | .obj kv =>
      match Val.pyOr ((Val.lookup kv "type").getD .null) (.str "") with
      | .str u =>
          if strLower u = "single" then _normalize_single_bet raw validate
          else if strLower u = "parlay" then _normalize_parlay_bet raw validate
          else if validate then
            .error (.betSlipParserError "Bet 'type' must be 'single' or 'parlay'")
          else
            .ok (partialTypeBet (strLower u) kv,
              some "Bet 'type' must be 'single' or 'parlay'")
      | _ => .error (.attributeError "object has no attribute lower")
  | _ => .error (.attributeError "object has no attribute get")

/-- The parlay-legs truncation prologue of the parse loop: for a dict
entry declaring `type == "parlay"` whose legs list exceeds the cap, copy
the entry with truncated legs and emit a warning. -/
def truncateEntry (max_legs : ℕ) (idx : ℕ) (raw : Val) : Val × List String :=
  match raw with
  | .obj kv =>
      if Val.pyEq ((Val.lookup kv "type").getD .null) (.str "parlay") then
        match Val.pyOr ((Val.lookup kv "legs").getD .null) (.arr []) with
        | .arr legs =>
            if max_legs < legs.length then
              (objSetKey raw "legs" (.arr (legs.take max_legs)),
               ["Bet " ++ natToString idx ++ ": parlay has " ++
                 natToString legs.length ++ " legs; only first " ++
                 natToString max_legs ++ " will be used."])
            else (raw, [])
        | _ => (raw, [])
      else (raw, [])
  | _ => (raw, [])

/-- The `for idx, raw_bet in enumerate(bets_iter, start=1)` loop of
`parse_bets_from_model_output`, with its `except BetSlipParserError`
handler; any other exception escapes. -/
def parseLoop (max_legs : ℕ) :
    List Val → ℕ → List Val → List String → Except PyErr (List Val × List String)
  | [], _, accB, accW => .ok (accB, accW)
  | raw_bet :: rest, idx, accB, accW =>
      match _normalize_bet (truncateEntry max_legs idx raw_bet).1 false with
      | .ok (bet, some verr) =>
          parseLoop max_legs rest (idx + 1)
            (accB ++ [objSetKey bet "_validationError" (.str verr)])
            (accW ++ (truncateEntry max_legs idx raw_bet).2 ++
              ["Bet " ++ natToString idx ++ " has validation errors: " ++ verr])
      | .ok (bet, none) =>
          parseLoop max_legs rest (idx + 1) (accB ++ [bet])
            (accW ++ (truncateEntry max_legs idx raw_bet).2)
      | .error (.betSlipParserError msg) =>
          if (truncateEntry max_legs idx raw_bet).1.isObj then
            parseLoop max_legs rest (idx + 1)
              (accB ++ [objSetKey (truncateEntry max_legs idx raw_bet).1
                "_validationError" (.str msg)])
              (accW ++ (truncateEntry max_legs idx raw_bet).2 ++
                ["Bet " ++ natToString idx ++ " has parsing errors: " ++ msg])
          else
            parseLoop max_legs rest (idx + 1) accB
              (accW ++ (truncateEntry max_legs idx raw_bet).2 ++
                ["Bet " ++ natToString idx ++ " skipped: " ++ msg])
      | .error e => .error e

/-- `parse_bets_from_model_output(model_output, max_bets,
max_legs_per_parlay)`; `parsed` is the result of `json.loads`
(`none` = `JSONDecodeError`). -/
def parse_bets_from_model_output (parsed : Option Val)
    (max_bets max_legs_per_parlay : ℕ) :
    Except PyErr (List Val × List String) :=
  match parsed with
  | none => .error (.betSlipParserError "Model output is not valid JSON")
  | some data =>
      match data with
      | .obj kv =>
          match (Val.lookup kv "bets").getD .null with
          | .null => .error (.betSlipParserError "Model output must contain a 'bets' array")
          | .arr bets_raw =>
              if max_bets < bets_raw.length then
                parseLoop max_legs_per_parlay (bets_raw.take max_bets) 1 []
                  ["Model returned " ++ natToString bets_raw.length ++
                    " bets, but only the first " ++ natToString max_bets ++
                    " will be used."]
              else parseLoop max_legs_per_parlay bets_raw 1 [] []
          | _ => .error (.betSlipParserError "'bets' must be a list")
      | _ => .error (.betSlipParserError "Model output must be a JSON object")

/-- A same-game group ("A") with one real odds value and one missing,
plus a parlay-level hint `-200`: the hint must not overwrite leg 0. -/
def cexHintLegs : List Val :=
  [Val.obj [("teams", Val.str "A"), ("odds", Val.num (-110))],
   Val.obj [("teams", Val.str "A"), ("odds", Val.null)]]

/-- Concrete instantiation of `C7_hint_preserves_existing_odds` at leg 0:
with legs `cexHintLegs` and the hint `-200`, the resolver returns the
list unchanged and leg 0 keeps its odds `-110`. -/
theorem C7_hint_preserves_existing_odds_witness :
    handle_same_game_parlay_odds cexHintLegs (.num (-200)) = .ok cexHintLegs ∧
      oddsD (legAt cexHintLegs 0) = .num (-110) ∧
      oddsD (legAt cexHintLegs 0) = oddsD (legAt cexHintLegs 0) :=
  ⟨by rfl, rfl,
    C7_hint_preserves_existing_odds cexHintLegs (.num (-200)) "A" (by decide)
      (by decide)
      (by
        intro j hj
        have hj2 : j ∈ ([0, 1] : List ℕ) := hj
        rcases List.mem_cons.mp hj2 with rfl | hj3
        · exact ⟨[("teams", Val.str "A"), ("odds", Val.num (-110))], rfl, rfl, rfl⟩
        · rcases List.mem_cons.mp hj3 with rfl | hj4
          · exact ⟨[("teams", Val.str "A"), ("odds", Val.null)], rfl, rfl, rfl⟩
          · cases hj4)
      ⟨0, by decide, by decide⟩
      (fun hcon => absurd (hcon.1 1 (by decide)) (by decide))
      cexHintLegs (by rfl) 0 (by decide) (by decide)⟩

/-- The parse loop catches every `BetSlipParserError` raised while
normalizing an entry, so no `BetSlipParserError` can escape from it. -/
lemma parseLoop_ne_bspe (ml : ℕ) (bets : List Val) :
    ∀ (idx : ℕ) (accB : List Val) (accW : List String) (msg : String),
    parseLoop ml bets idx accB accW ≠ .error (.betSlipParserError msg) := by
  induction bets with
  | nil =>
      intro idx accB accW msg h
      simp [parseLoop] at h
  | cons b rest ih =>
      intro idx accB accW msg h
      rw [parseLoop] at h
      split at h
      · exact ih _ _ _ _ h
      · exact ih _ _ _ _ h
      · split at h
        · exact ih _ _ _ _ h
        · exact ih _ _ _ _ h
      · rename_i hne heq
        injection h with h2
        subst h2
        exact hne msg rfl

/-- The batch-fatal input shapes named by the spec: no JSON value at all,
a non-object top level, a missing `bets` key, or a `bets` value that is
not a list (`none` from `json.loads` stands for undecodable text; a JSON
`null` under `bets` and an absent key both read back as `None`). -/
def batchFatal (parsed : Option Val) : Prop :=
  parsed = none ∨
    (∃ v, parsed = some v ∧ ∀ kv, v ≠ Val.obj kv) ∨
    (∃ kv, parsed = some (Val.obj kv) ∧
      ∀ bets, (Val.lookup kv "bets").getD .null ≠ Val.arr bets)

/-- C5: `parse_bets_from_model_output` raises `BetSlipParserError` (and
so returns no partial list) exactly when the input is not parseable
JSON, is not a JSON object, lacks a `bets` key, or has a non-list `bets`
value; a per-entry `BetSlipParserError` is always caught by the loop. -/
theorem C5_batch_fatal (parsed : Option Val) (mb ml : ℕ) :
    (∃ msg, parse_bets_from_model_output parsed mb ml =
      .error (.betSlipParserError msg)) ↔ batchFatal parsed := by
  cases parsed with
  | none =>
      exact iff_of_true ⟨"Model output is not valid JSON", rfl⟩ (Or.inl rfl)
  | some v =>
      cases v with
      | obj kv =>
          refine Iff.intro ?_ ?_
          · intro hL
            rcases hL with ⟨msg, hmsg⟩
            rw [parse_bets_from_model_output] at hmsg
            refine Or.inr (Or.inr ⟨kv, rfl, ?_⟩)
            intro bets hbets
            rw [hbets] at hmsg
            replace hmsg :
                (if mb < bets.length then
                    parseLoop ml (List.take mb bets) 1 []
                      ["Model returned " ++ natToString bets.length ++
                        " bets, but only the first " ++ natToString mb ++
                        " will be used."]
                  else parseLoop ml bets 1 [] []) =
                  Except.error (PyErr.betSlipParserError msg) := hmsg
            by_cases hlen : mb < bets.length
            · rw [if_pos hlen] at hmsg
              exact parseLoop_ne_bspe ml _ _ _ _ _ hmsg
            · rw [if_neg hlen] at hmsg
              exact parseLoop_ne_bspe ml _ _ _ _ _ hmsg
          · intro hR
            rcases hR with h | ⟨w, hw, hno⟩ | ⟨kv2, hkv2, hno⟩
            · cases h
            · cases hw
              exact absurd rfl (hno kv)
            · cases hkv2
              rw [parse_bets_from_model_output]
              cases hb : (Val.lookup kv "bets").getD .null with
              | null => exact ⟨"Model output must contain a 'bets' array", rfl⟩
              | bool b => exact ⟨"'bets' must be a list", rfl⟩
              | num q => exact ⟨"'bets' must be a list", rfl⟩
              | str s => exact ⟨"'bets' must be a list", rfl⟩
              | arr l => exact absurd hb (hno l)
              | obj kv3 => exact ⟨"'bets' must be a list", rfl⟩
      | null =>
          refine iff_of_true ⟨"Model output must be a JSON object", rfl⟩
            (Or.inr (Or.inl ⟨.null, rfl, fun kv h => by cases h⟩))
      | bool b =>
          refine iff_of_true ⟨"Model output must be a JSON object", rfl⟩
            (Or.inr (Or.inl ⟨.bool b, rfl, fun kv h => by cases h⟩))
      | num q =>
          refine iff_of_true ⟨"Model output must be a JSON object", rfl⟩
            (Or.inr (Or.inl ⟨.num q, rfl, fun kv h => by cases h⟩))
      | str s =>
          refine iff_of_true ⟨"Model output must be a JSON object", rfl⟩
            (Or.inr (Or.inl ⟨.str s, rfl, fun kv h => by cases h⟩))
      | arr l =>
          refine iff_of_true ⟨"Model output must be a JSON object", rfl⟩
            (Or.inr (Or.inl ⟨.arr l, rfl, fun kv h => by cases h⟩))

/-- The record the loop appends for one entry: the normalized bet, with
the `_validationError` marker exactly when `_normalize_bet` (run with
`validate=False`) itself reported a structural error.  The `.error`
fallback is never reached under the theorems' hypotheses. -/
def normMarkD (raw : Val) : Val :=
  match _normalize_bet raw false with
  | .ok (bet, some msg) => objSetKey bet "_validationError" (.str msg)
  | .ok (bet, none) => bet
  | .error _ => raw

/-- The warnings the loop appends for one entry at index `idx`. -/
def normWarnD (idx : ℕ) (raw : Val) : List String :=
  match _normalize_bet raw false with
  | .ok (_, some msg) =>
      ["Bet " ++ natToString idx ++ " has validation errors: " ++ msg]
  | _ => []

def warnsFrom : ℕ → List Val → List String
  | _, [] => []
  | idx, e :: rest => normWarnD idx e ++ warnsFrom (idx + 1) rest

/-- The entry does not trip the parlay-legs truncation prologue. -/
def noTruncNeeded (ml : ℕ) (e : Val) : Prop :=
  ∀ kv, e = Val.obj kv →
    Val.pyEq ((Val.lookup kv "type").getD .null) (.str "parlay") = true →
    ∀ legs, Val.pyOr ((Val.lookup kv "legs").getD .null) (.arr []) = .arr legs →
      legs.length ≤ ml

lemma truncateEntry_id (ml idx : ℕ) (e : Val) (h : noTruncNeeded ml e) :
    truncateEntry ml idx e = (e, []) := by
  cases e with
  | obj kv =>
      rw [truncateEntry]
      by_cases hp :
          Val.pyEq ((Val.lookup kv "type").getD .null) (.str "parlay") = true
      · rw [if_pos hp]
        cases hl : Val.pyOr ((Val.lookup kv "legs").getD .null) (.arr []) with
        | arr legs =>
            exact if_neg (Nat.not_lt.mpr (h kv rfl hp legs hl))
        | null => rfl
        | bool b => rfl
        | num q => rfl
        | str s => rfl
        | obj kv2 => rfl
      · rw [if_neg hp]
  | null => rfl
  | bool b => rfl
  | num q => rfl
  | str s => rfl
  | arr l => rfl

/-- When no entry trips the truncation prologue and each entry
normalizes without an exception, the loop returns every normalized
record (marked by `normMarkD`) and the matching warnings. -/
lemma parseLoop_clean (ml : ℕ) (bets : List Val) :
    ∀ (idx : ℕ) (accB : List Val) (accW : List String),
    (∀ e ∈ bets, noTruncNeeded ml e) →
    (∀ e ∈ bets, ∃ bv, _normalize_bet e false = .ok bv) →
    parseLoop ml bets idx accB accW =
      .ok (accB ++ bets.map normMarkD, accW ++ warnsFrom idx bets) := by
  induction bets with
  | nil =>
      intro idx accB accW _ _
      simp [parseLoop, warnsFrom]
  | cons b rest ih =>
      intro idx accB accW ht hn
      obtain ⟨⟨bet, verr⟩, hb⟩ := hn b (List.mem_cons_self b rest)
      rw [parseLoop, truncateEntry_id ml idx b (ht b (List.mem_cons_self b rest))]
      have ht2 : ∀ e ∈ rest, noTruncNeeded ml e :=
        fun e he => ht e (List.mem_cons_of_mem b he)
      have hn2 : ∀ e ∈ rest, ∃ bv, _normalize_bet e false = .ok bv :=
        fun e he => hn e (List.mem_cons_of_mem b he)
      cases verr with
      | some msg =>
          replace hb : _normalize_bet (b, ([] : List String)).1 false =
            .ok (bet, some msg) := hb
          rw [hb]
          show parseLoop ml rest (idx + 1)
              (accB ++ [objSetKey bet "_validationError" (Val.str msg)])
              (accW ++ [] ++
                ["Bet " ++ natToString idx ++ " has validation errors: " ++ msg]) = _
          rw [ih (idx + 1) _ _ ht2 hn2]
          simp [normMarkD, normWarnD, warnsFrom, hb]
      | none =>
          replace hb : _normalize_bet (b, ([] : List String)).1 false =
            .ok (bet, none) := hb
          rw [hb]
          show parseLoop ml rest (idx + 1) (accB ++ [bet]) (accW ++ []) = _
          rw [ih (idx + 1) _ _ ht2 hn2]
          simp [normMarkD, normWarnD, warnsFrom, hb]

/-- C1 (amended): the parse loop normalizes every entry with
`validate=False` — the schema validator is never consulted — and a
record carries the `_validationError` marker (with its warning) exactly
when `_normalize_bet` itself reported a structural error; the output is
fully determined by `normMarkD`/`normWarnD`, which only read
`_normalize_bet ... false`. -/
theorem C1_no_validator (entries : List Val) (mb ml : ℕ)
    (hmb : entries.length ≤ mb)
    (ht : ∀ e ∈ entries, noTruncNeeded ml e)
    (hn : ∀ e ∈ entries, ∃ bv, _normalize_bet e false = .ok bv) :
    parse_bets_from_model_output (some (.obj [("bets", .arr entries)])) mb ml =
      .ok (entries.map normMarkD, warnsFrom 1 entries) := by
  rw [parse_bets_from_model_output]
  show (if mb < entries.length then
      parseLoop ml (List.take mb entries) 1 []
        ["Model returned " ++ natToString entries.length ++
          " bets, but only the first " ++ natToString mb ++ " will be used."]
    else parseLoop ml entries 1 [] []) = _
  rw [if_neg (Nat.not_lt.mpr hmb)]
  simpa using parseLoop_clean ml entries 1 [] [] ht hn

/-- The bets-array entry `{"type": "single"}`: declared single, no other
fields. -/
def c1Entry : Val := .obj [("type", .str "single")]

/-- What `_normalize_single_bet` makes of `c1Entry`: every recognized
field filled with `None`, status defaulted. -/
def c1Norm : Val :=
  .obj [("type", .str "single"), ("amount", .null), ("date", .null),
        ("sport", .null), ("teams", .null), ("betType", .null),
        ("selection", .null), ("odds", .null), ("status", .str "pending")]

/-- C1 counterexample: parsing `{"bets": [{"type": "single"}]}` returns
the normalized record with NO `_validationError` marker and NO warning,
even though the schema validator rejects that record ("Amount must be a
positive number") — `parse_bets_from_model_output` never runs
`validate_single_bet` / `validate_parlay` on the normalized records, so
schema-invalid records pass through unmarked. -/
theorem C1_validator_not_run_counterexample :
    parse_bets_from_model_output
        (some (.obj [("bets", .arr [c1Entry])])) 20 20 = .ok ([c1Norm], []) ∧
      validate_single_bet c1Norm =
        .ok (false, some "Amount must be a positive number") ∧
      c1Norm.hasKey "_validationError" = false :=
  ⟨rfl, rfl, rfl⟩

/-- Concrete instantiation of `C1_no_validator` on the singleton batch
`{"bets": [{"type": "single"}]}`. -/
theorem C1_no_validator_witness :
    parse_bets_from_model_output (some (.obj [("bets", .arr [c1Entry])])) 20 20 =
      .ok ([c1Entry].map normMarkD, warnsFrom 1 [c1Entry]) :=
  C1_no_validator [c1Entry] 20 20 (by decide)
    (by
      intro e he
      rcases List.mem_cons.mp he with rfl | h0
      · intro kv hkv hp
        injection hkv with h2
        subst h2
        exact absurd hp (by decide)
      · cases h0)
    (by
      intro e he
      rcases List.mem_cons.mp he with rfl | h0
      · exact ⟨(c1Norm, none), rfl⟩
      · cases h0)

/-- C3 (refuting the exception-safety half): a non-dict entry in the
bets array — here the valid JSON input `{"bets": [42]}` — raises
`AttributeError` at `raw_bet.get("type")` inside `_normalize_bet`; the
loop's `except BetSlipParserError` handler does not catch it, so the
exception escapes `parse_bets_from_model_output` and later entries are
never processed (the `else: warnings.append(f"Bet {idx} skipped ...")`
branch of the handler is unreachable for this case). -/
theorem C3_nondict_entry_aborts :
    parse_bets_from_model_output (some (.obj [("bets", .arr [.num 42])])) 20 20 =
      .error (.attributeError "object has no attribute get") := rfl

/-! ## Edit Permissions — `shared/auth.py` and the update-bet handler

`check_can_edit_bet` takes the two feature flags and the alias list as
parameters (they come from Cognito / the user profile, outside this
code).  The handler slice of `lambdas/update_bet/lambda_function.py`
(lines 57-163: every permission and validation decision between parsing
the body and calling the DB update) is `update_bet_checks`, with
`can_mark_featured` / `check_can_mark_win_loss` results as parameters;
`.ok none` means every check passed and the update proceeds,
`.ok (some (status, code))` is the `error_response` short-circuit. -/

/-- `len(v)` (`TypeError` for values without a length). -/
def pyLen (v : Val) : Except PyErr ℕ :=
  match v with
  | .arr l => .ok l.length
  | .str s => .ok s.length
  | .obj kv => .ok kv.length
  | _ => .error (.typeError "object has no len")

/-- `for x in v`: lists yield elements, strings characters, dicts keys. -/
def iterVals (v : Val) : Except PyErr (List Val) :=
  match v with
  | .arr l => .ok l
  | .str s => .ok (s.data.map (fun c => Val.str (String.mk [c])))
  | .obj kv => .ok (kv.map (fun p => Val.str p.1))
  | _ => .error (.typeError "object is not iterable")

/-- `v[key]` for a string key. -/
def pySubscript (v : Val) (key : String) : Except PyErr Val :=
  match v with
  | .obj kv =>
      match Val.lookup kv key with
      | some w => .ok w
      | none => .error (.keyError key)
  | .arr _ => .error (.typeError "list indices must be integers or slices, not str")
  | _ => .error (.typeError "object is not subscriptable")

/-- `xs[i]` on a list. -/
def listIdx {α : Type} (l : List α) (i : ℕ) : Except PyErr α :=
  match l.get? i with
  | some x => .ok x
  | none => .error (.indexError "list index out of range")

/-- The result dict of `check_can_edit_bet`: `can_edit_legs` is present
only on the parlay paths. -/
structure EditPerms where
  can_edit_overall : Bool
  can_edit_legs : Option (List Bool)

/-- `_is_attributed_to_user(attributed_to, user_aliases)`: falsy
attribution or an empty alias list is an immediate `False`; otherwise
Python `in` membership (`==` against each alias). -/
def _is_attributed_to_user (attributed_to : Val) (user_aliases : List String) : Bool :=
  if !attributed_to.truthy || user_aliases.isEmpty then false
  else user_aliases.any (fun a => attributed_to.pyEq (.str a))

/-- The `for leg in legs` attribution loop of the own-permission parlay
branch of `check_can_edit_bet`. -/
def legAttrPerms (aliases : List String) : List Val → Except PyErr (List Bool)
  | [] => .ok []
  | leg :: rest =>
      match leg.pyGet "attributedTo" with
      | .error e => .error e
      | .ok a =>
          match legAttrPerms aliases rest with
          | .error e => .error e
          | .ok bs => .ok (_is_attributed_to_user a aliases :: bs)

/-- `check_can_edit_bet(user_id, bet)` with the caller's aliases and the
two feature-flag reads (`canEditBets`, `canEditBetsOwn`) as parameters. -/
def check_can_edit_bet (user_aliases : List String)
    (has_global_edit has_own_edit : Bool) (bet : Val) : Except PyErr EditPerms :=
  match pyGetD bet "type" (.str "single") with
  | .error e => .error e
  | .ok bet_type =>
      if has_global_edit then
        if bet_type.pyEq (.str "single") then .ok ⟨true, none⟩
        else
          match pyGetD bet "legs" (.arr []) with
          | .error e => .error e
          | .ok legs =>
              match pyLen legs with
              | .error e => .error e
              | .ok n => .ok ⟨true, some (List.replicate n true)⟩
      else if !has_own_edit then
        if bet_type.pyEq (.str "single") then .ok ⟨false, none⟩
        else
          match pyGetD bet "legs" (.arr []) with
          | .error e => .error e
          | .ok legs =>
              match pyLen legs with
              | .error e => .error e
              | .ok n => .ok ⟨false, some (List.replicate n false)⟩
      else
        if bet_type.pyEq (.str "single") then
          match pyGetD bet "attributedTo" .null with
          | .error e => .error e
          | .ok a => .ok ⟨_is_attributed_to_user a user_aliases, none⟩
        else
          match pyGetD bet "attributedTo" .null with
          | .error e => .error e
          | .ok a =>
              match pyGetD bet "legs" (.arr []) with
              | .error e => .error e
              | .ok legs =>
                  match iterVals legs with
                  | .error e => .error e
                  | .ok legList =>
                      match legAttrPerms user_aliases legList with
                      | .error e => .error e
                      | .ok bs =>
                          .ok ⟨_is_attributed_to_user a user_aliases, some bs⟩

def legEditKeys : List String :=
  ["teams", "sport", "betType", "selection", "odds", "attributedTo"]

/-- `leg_changed`: does any editable key differ between the submitted
leg and the stored leg (`updated_leg.get(key) != existing_leg.get(key)`)? -/
def legChanged (upd ex : Val) : List String → Except PyErr Bool
  | [] => .ok false
  | k :: rest => do
      let a ← upd.pyGet k
      let b ← ex.pyGet k
      if !(a.pyEq b) then return true
      else legChanged upd ex rest

/-- Lines 78-95: for each submitted leg the caller may not edit, reject
iff the leg actually changed. -/
def legEditLoop (can_edit_legs : List Bool) (existing_legs : List Val) :
    List Val → ℕ → Except PyErr (Option (ℕ × String))
  | [], _ => .ok none
  | upd :: rest, i => do
      let ce ← listIdx can_edit_legs i
      if !ce then
        let ex ← listIdx existing_legs i
        let changed ← legChanged upd ex legEditKeys
        if changed then return some (403, "FORBIDDEN")
        else legEditLoop can_edit_legs existing_legs rest (i + 1)
      else legEditLoop can_edit_legs existing_legs rest (i + 1)

/-- Lines 99-107 (dead under the earlier overall gate): reject if an
overall parlay field appears among the updates. -/
def overallFieldsCheck (updates : Val) : List String → Except PyErr (Option (ℕ × String))
  | [] => .ok none
  | f :: rest => do
      let here ← pyContains updates f
      if here then return some (403, "FORBIDDEN")
      else overallFieldsCheck updates rest

/-- Lines 121-133: a caller without mark-permission on a leg may submit a
`status` only if it equals the stored one. -/
def legStatusLoop (can_mark_legs : List Bool) (existing_legs : List Val) :
    List Val → ℕ → Except PyErr (Option (ℕ × String))
  | [], _ => .ok none
  | upd :: rest, i => do
      let hasStatus ← pyContains upd "status"
      if hasStatus then
        if decide (can_mark_legs.length ≤ i) || !((can_mark_legs.get? i).getD false) then
          let ex ← listIdx existing_legs i
          let exStatus ← pyGetD ex "status" (.str "pending")
          let us ← upd.pyGet "status"
          if !(us.pyEq exStatus) then return some (403, "FORBIDDEN")
          else legStatusLoop can_mark_legs existing_legs rest (i + 1)
        else legStatusLoop can_mark_legs existing_legs rest (i + 1)
      else legStatusLoop can_mark_legs existing_legs rest (i + 1)

def validStatuses : List Val := [.str "pending", .str "won", .str "lost"]

/-- Lines 146-163: each submitted leg must be a dict, and a submitted
leg `status` must be one of the valid statuses. -/
def legsValidateLoop : List Val → ℕ → Except PyErr (Option (ℕ × String))
  | [], _ => .ok none
  | leg :: rest, _i => do
      if !leg.isObj then return some (400, "INVALID_LEG")
      else
        let hasStatus ← pyContains leg "status"
        if hasStatus then
          let s ← pySubscript leg "status"
          if !(validStatuses.any (fun v => s.pyEq v)) then
            return some (400, "INVALID_LEG_STATUS")
          else legsValidateLoop rest (_i + 1)
        else legsValidateLoop rest (_i + 1)

/-- Lines 57-163 of the update-bet handler: every permission and
validation decision on the parsed body, in source order (`return` is the
handler's `return error_response(...)` short-circuit; the existing-legs
value is iterated into a list once for the per-leg loops). -/
def update_bet_checks (edit_perms : EditPerms)
    (can_mark_feat can_mark_overall : Bool) (can_mark_legs : List Bool)
    (existing_bet updates : Val) : Except PyErr (Option (ℕ × String)) := do
  if !edit_perms.can_edit_overall then
    return some (403, "FORBIDDEN")
  let bet_type ← pyGetD existing_bet "type" (.str "single")
  if bet_type.pyEq (.str "parlay") then
    let can_edit_legs := edit_perms.can_edit_legs.getD []
    let hasLegs ← pyContains updates "legs"
    if hasLegs then
      let updLegs ← pySubscript updates "legs"
      match updLegs with
      | .arr ul =>
          let exLegs ← pyGetD existing_bet "legs" (.arr [])
          let nEx ← pyLen exLegs
          if ul.length ≠ nEx then return some (400, "INVALID_LEGS")
          let exList ← iterVals exLegs
          let r ← legEditLoop can_edit_legs exList ul 0
          if let some err := r then return some err
          if !edit_perms.can_edit_overall then
            let ro ← overallFieldsCheck updates ["amount", "date", "attributedTo"]
            if let some err := ro then return some err
      | _ => return some (400, "INVALID_LEGS")
  let hasFeatured ← pyContains updates "featured"
  if hasFeatured && !can_mark_feat then
    return some (403, "FORBIDDEN")
  let hasStatus ← pyContains updates "status"
  if hasStatus && !can_mark_overall then
    return some (403, "FORBIDDEN")
  let hasLegs2 ← pyContains updates "legs"
  if hasLegs2 && bet_type.pyEq (.str "parlay") then
    let updLegs ← pySubscript updates "legs"
    let exLegs ← pyGetD existing_bet "legs" (.arr [])
    let exList ← iterVals exLegs
    let ul ← iterVals updLegs
    let r ← legStatusLoop can_mark_legs exList ul 0
    if let some err := r then return some err
  if hasStatus then
    let s ← pySubscript updates "status"
    if !(validStatuses.any (fun v => s.pyEq v)) then
      return some (400, "INVALID_STATUS")
  if hasLegs2 then
    let updLegs ← pySubscript updates "legs"
    match updLegs with
    | .arr ul =>
        let r ← legsValidateLoop ul 0
        if let some err := r then return some err
    | _ => return some (400, "INVALID_LEGS")
  return none

lemma legAttrPerms_obj (aliases : List String) (legs : List Val)
    (hobj : ∀ leg ∈ legs, leg.isObj = true) :
    legAttrPerms aliases legs =
      .ok (legs.map (fun leg =>
        _is_attributed_to_user (Val.getD leg "attributedTo" .null) aliases)) := by
  induction legs with
  | nil => rfl
  | cons leg rest ih =>
      have hl := hobj leg (List.mem_cons_self leg rest)
      have ihr := ih (fun e he => hobj e (List.mem_cons_of_mem leg he))
      cases leg with
      | obj lkv => simp [legAttrPerms, Val.pyGet, ihr, Val.getD]
      | null => simp [Val.isObj] at hl
      | bool b => simp [Val.isObj] at hl
      | num q => simp [Val.isObj] at hl
      | str s => simp [Val.isObj] at hl
      | arr l => simp [Val.isObj] at hl

/-- C8 (amended): the three-tier policy of `check_can_edit_bet` on a
parlay whose legs are dicts: the global flag grants everything, its
absence together with no own-scope flag denies everything, and in the
own-scope tier the overall and per-leg decisions are
`_is_attributed_to_user` of the respective `attributedTo` — which is
exact, case-sensitive membership in the alias list, but gated: a falsy
attribution (absent, `None`, or the empty string) or an empty alias list
is denied even when exact membership would hold. -/
theorem C8_edit_tiers (aliases : List String) (hg ho : Bool)
    (kv : List (String × Val)) (legs : List Val)
    (hty : (Val.lookup kv "type").getD (.str "single") = .str "parlay")
    (hlegs : (Val.lookup kv "legs").getD (.arr []) = .arr legs)
    (hobj : ∀ leg ∈ legs, leg.isObj = true) :
    (check_can_edit_bet aliases hg ho (.obj kv) = .ok
      ⟨if hg then true else if ho then
          _is_attributed_to_user ((Val.lookup kv "attributedTo").getD .null) aliases
        else false,
       some (if hg then List.replicate legs.length true
         else if ho then
           legs.map (fun leg =>
             _is_attributed_to_user (Val.getD leg "attributedTo" .null) aliases)
         else List.replicate legs.length false)⟩)
    ∧ ∀ a : Val, (_is_attributed_to_user a aliases = true ↔
        (a.truthy = true ∧ ∃ s ∈ aliases, a.pyEq (.str s) = true)) := by
  have hpe : Val.pyEq (.str "parlay") (.str "single") = false := rfl
  refine ⟨?_, ?_⟩
  · cases hg with
    | true =>
        simp [check_can_edit_bet, pyGetD, hty, hlegs, hpe, pyLen]
    | false =>
        cases ho with
        | false =>
            simp [check_can_edit_bet, pyGetD, hty, hlegs, hpe, pyLen]
        | true =>
            simp [check_can_edit_bet, pyGetD, hty, hlegs, hpe, iterVals,
              legAttrPerms_obj aliases legs hobj]
  · intro a
    constructor
    · intro h
      rw [_is_attributed_to_user] at h
      split at h
      · cases h
      · rename_i hcond
        rw [Bool.or_eq_true, not_or] at hcond
        obtain ⟨hnt, hne⟩ := hcond
        have htr : a.truthy = true := by
          cases htt : a.truthy with
          | false => exact absurd (by rw [htt]; rfl) hnt
          | true => rfl
        exact ⟨htr, List.any_eq_true.mp h⟩
    · rintro ⟨htr, s, hs, hpe2⟩
      rw [_is_attributed_to_user]
      cases aliases with
      | nil => cases hs
      | cons x xs =>
          rw [if_neg (by rw [htr]; simp)]
          exact List.any_eq_true.mpr ⟨s, hs, hpe2⟩

def c8LegA : Val := .obj [("attributedTo", .str "Alice")]

def c8LegB : Val := .obj [("attributedTo", .str "Bob")]

def c8Kv : List (String × Val) :=
  [("type", .str "parlay"), ("attributedTo", .str "Alice"),
   ("legs", .arr [c8LegA, c8LegB])]

/-- Concrete instantiation of `C8_edit_tiers`: own-scope caller with
alias list `["Alice"]` on a two-leg parlay attributed to Alice with legs
attributed to Alice and Bob. -/
theorem C8_edit_tiers_witness :
    (check_can_edit_bet ["Alice"] false true (.obj c8Kv) = .ok
      ⟨if false then true else if true then
          _is_attributed_to_user ((Val.lookup c8Kv "attributedTo").getD .null) ["Alice"]
        else false,
       some (if false then List.replicate ([c8LegA, c8LegB] : List Val).length true
         else if true then
           [c8LegA, c8LegB].map (fun leg =>
             _is_attributed_to_user (Val.getD leg "attributedTo" .null) ["Alice"])
         else List.replicate ([c8LegA, c8LegB] : List Val).length false)⟩)
    ∧ ∀ a : Val, (_is_attributed_to_user a ["Alice"] = true ↔
        (a.truthy = true ∧ ∃ s ∈ ["Alice"], a.pyEq (.str s) = true)) :=
  C8_edit_tiers ["Alice"] false true c8Kv [c8LegA, c8LegB] rfl rfl (by decide)

/-- C8 counterexample: attribution matching is NOT plain exact string
membership — the empty string `""` IS a member of the alias list `[""]`,
yet the own-scope tier denies the edit, because
`_is_attributed_to_user` short-circuits to `False` on falsy attribution
(`if not attributed_to or not user_aliases`). -/
theorem C8_edit_tiers_counterexample :
    check_can_edit_bet [""] false true
        (.obj [("type", .str "single"), ("attributedTo", .str "")]) =
      .ok ⟨false, none⟩ ∧ ("" : String) ∈ ([""] : List String) :=
  ⟨rfl, by decide⟩

def c9LegA : Val :=
  .obj [("teams", .str "X vs Y"), ("sport", .str "NBA"),
        ("betType", .str "moneyline"), ("selection", .str "X"),
        ("odds", .num (-110)), ("attributedTo", .str "Alice")]

def c9LegB : Val :=
  .obj [("teams", .str "Z vs W"), ("sport", .str "NBA"),
        ("betType", .str "moneyline"), ("selection", .str "Z"),
        ("odds", .num 120), ("attributedTo", .str "Bob")]

/-- `c9LegB` with only its `selection` changed. -/
def c9LegBChanged : Val :=
  .obj [("teams", .str "Z vs W"), ("sport", .str "NBA"),
        ("betType", .str "moneyline"), ("selection", .str "W"),
        ("odds", .num 120), ("attributedTo", .str "Bob")]

def c9Bet : Val :=
  .obj [("type", .str "parlay"), ("amount", .num 50),
        ("attributedTo", .str "Alice"), ("legs", .arr [c9LegA, c9LegB])]

def c9UpdatesSame : Val := .obj [("legs", .arr [c9LegA, c9LegB])]

def c9UpdatesChanged : Val := .obj [("legs", .arr [c9LegA, c9LegBChanged])]

/-- C9: a caller with only own-scope edit permission and alias list
`["Alice"]`, on a parlay attributed to Alice whose second leg is
attributed to Bob (edit permissions overall=true, legs=[true, false]):
submitting the legs with Bob's leg unchanged field-for-field passes
every check of the update handler, while the same request with that
leg's `selection` changed is rejected 403 Forbidden. -/
theorem C9_own_scope_leg_guard :
    check_can_edit_bet ["Alice"] false true c9Bet =
        .ok ⟨true, some [true, false]⟩ ∧
      update_bet_checks ⟨true, some [true, false]⟩ false false []
        c9Bet c9UpdatesSame = .ok none ∧
      update_bet_checks ⟨true, some [true, false]⟩ false false []
        c9Bet c9UpdatesChanged = .ok (some (403, "FORBIDDEN")) :=
  ⟨rfl, rfl, rfl⟩

end BetTracker
